import Mathlib

/-!
# Shallow embedding of `fastbill/go-request` (src/request.go)

This file embeds the request-execution pipeline of the `request` Go package
in Lean 4 and proves properties of it.  Pure Go functions become Lean
functions; the global cached `*http.Client` becomes explicit state passing
over a `ClientState`; pointer identity of clients is modelled by an
allocation counter (`id`); fallible operations return `Except`/`Option`.
External collaborators (the network transport, the JSON encoder/decoder,
`res.Body.Close`) are modelled as oracles supplied in a `CallEnv`: the
embedding fixes only how the package reacts to their outcomes, which is all
the package's code decides.
-/

namespace GoRequest

/-- Go `error` values as they occur in this package: `errors.New`/plain
`fmt.Errorf` messages, the `*httperrors.HTTPError` structured error, and
`fmt.Errorf("...: %w", err)` wrapping.  `HTTPError` keeps the
`message interface{}` argument of `httperrors.New` as an `Option String`:
`none` embeds the `nil` argument. -/
inductive GoError where
  | message (text : String)
  | httpError (statusCode : Int) (body : Option String)
  | wrapped (context : String) (inner : GoError)
deriving DecidableEq, Repr

/-- `http.Response` as far as this package inspects it.  `bodyRead` is the
oracle for reading the body stream to the end (`ioutil.ReadAll` /
`json` decoding source): `.error e` embeds a failing read, `.ok s` a full
read yielding the text `s`. -/
structure HttpResponse where
  statusCode : Int
  header : List (String × List String)
  bodyRead : Except GoError String
deriving Repr

/-- `isSuccessCode` from src/request.go: `200 <= statusCode && statusCode <= 299`. -/
def isSuccessCode (statusCode : Int) : Bool :=
  200 ≤ statusCode && statusCode ≤ 299

/-- `checkResponseCode` from src/request.go.  Returns `some err` where the Go
function returns a non-nil error and `none` where it returns `nil`.
`httperrors.New(code, nil)` is embedded as `.httpError code none`,
`httperrors.New(code, string(bodyBytes))` as `.httpError code (some body)`. -/
def checkResponseCode (res : HttpResponse) (expectedResponseCode : Int) : Option GoError :=
  if expectedResponseCode ≠ 0 ∧ res.statusCode ≠ expectedResponseCode then
    some (.message ("expected response code " ++ toString expectedResponseCode ++
      " but got " ++ toString res.statusCode))
  else if !isSuccessCode res.statusCode then
    match res.bodyRead with
    | .error _ => some (.httpError res.statusCode none)
    | .ok bodyBytes =>
      if bodyBytes.length = 0 then some (.httpError res.statusCode none)
      else some (.httpError res.statusCode (some bodyBytes))
  else
    none

/-- `time.Second` in nanoseconds (`time.Duration` is an integer count of
nanoseconds in Go). -/
def second : Int := 1000000000

/-- `defaultTimeout = 30 * time.Second` from src/request.go. -/
def defaultTimeout : Int := 30 * second

/-- `*http.Client` as far as this package configures it: the timeout, the
redirect policy installed by `GetClient` (`CheckRedirect` returning
`http.ErrUseLastResponse`, i.e. redirects are not followed), and an
allocation id standing for pointer identity. -/
structure HttpClient where
  timeout : Int
  followRedirects : Bool
  id : Nat
deriving DecidableEq, Repr

/-- The package-level mutable state: the `cachedClient` global variable,
plus the allocation counter that models pointer freshness. -/
structure ClientState where
  cached : Option HttpClient
  nextId : Nat
deriving DecidableEq, Repr

/-- Well-formedness of the allocation model: the cached client, when present,
was allocated earlier than every id the allocator will hand out next. -/
def ClientState.wf (s : ClientState) : Bool :=
  match s.cached with
  | none => true
  | some c => c.id < s.nextId

/-- `GetClient` from src/request.go: returns a new client that does not
follow redirects and has the default timeout.  Allocation is made explicit:
the fresh pointer is the current `nextId`. -/
def GetClient (nextId : Nat) : HttpClient :=
  { timeout := defaultTimeout, followRedirects := false, id := nextId }

/-- `getCachedClient` from src/request.go: returns the cached client
instance, creating it via `GetClient` if it did not exist yet. -/
def getCachedClient (s : ClientState) : HttpClient × ClientState :=
  match s.cached with
  | none =>
    let c := GetClient s.nextId
    (c, { cached := some c, nextId := s.nextId + 1 })
  | some c => (c, s)

/-- `selectClient` from src/request.go: a nonzero timeout yields a fresh
client (from `GetClient`) with its `Timeout` field set to that timeout;
otherwise the cached client is used. -/
def selectClient (timeout : Int) (s : ClientState) : HttpClient × ClientState :=
  if timeout ≠ 0 then
    ({ GetClient s.nextId with timeout := timeout }, { s with nextId := s.nextId + 1 })
  else
    getCachedClient s

/-! ## Request builder: headers -/

/-- `validHeaderFieldByte` from Go's `net/textproto`: the HTTP token
characters (ASCII letters and digits plus `!#$%&'*+-.^_` backquote `|~`).
`Char.ofNat 39` is the apostrophe, `Char.ofNat 96` the backquote. -/
def isTokenChar (c : Char) : Bool :=
  c.isAlpha || c.isDigit || c = '!' || c = '#' || c = '$' || c = '%' || c = '&' ||
  c = Char.ofNat 39 || c = '*' || c = '+' || c = '-' || c = '.' || c = '^' ||
  c = '_' || c = Char.ofNat 96 || c = '|' || c = '~'

/-- The case-mapping loop of `textproto.CanonicalMIMEHeaderKey`: uppercase a
letter at the start and after each hyphen, lowercase the rest. -/
def canonChars : Bool → List Char → List Char
  | _, [] => []
  | upper, c :: rest =>
    let c2 := if upper then c.toUpper else c.toLower
    c2 :: canonChars (c2 = '-') rest

/-- `textproto.CanonicalMIMEHeaderKey` (used by `http.Header.Set`): the
canonical form of a header key, or the key unchanged when it contains a
non-token character. -/
def canonicalMIMEHeaderKey (s : String) : String :=
  if s.toList.all isTokenChar then String.mk (canonChars true s.toList) else s

/-- `http.Header`: a map from canonical header keys to value lists,
embedded extensionally. -/
def Header : Type := String → Option (List String)

/-- `http.Header.Set`: replaces the entry at the canonicalised key with the
single-element value list. -/
def Header.set (h : Header) (key value : String) : Header :=
  fun k => if k = canonicalMIMEHeaderKey key then some [value] else h k

/-- The empty header map a fresh `http.Request` starts with. -/
def emptyHeader : Header := fun _ => none

/-! ## Request builder: URL query handling

Go strings are byte strings and `net/url` escaping works bytewise, so query
keys and values are embedded as lists of bytes (`List Nat`, each < 256);
Lean `String` inputs are converted through UTF-8. -/

/-- UTF-8 encoding of one character, as a list of byte values. -/
def utf8Bytes (c : Char) : List Nat :=
  let n := c.toNat
  if n < 128 then [n]
  else if n < 2048 then [192 + n / 64, 128 + n % 64]
  else if n < 65536 then [224 + n / 4096, 128 + n / 64 % 64, 128 + n % 64]
  else [240 + n / 262144, 128 + n / 4096 % 64, 128 + n / 64 % 64, 128 + n % 64]

/-- The bytes of a Lean string (UTF-8), matching how a Go `string` holds the
same text. -/
def strBytes (s : String) : List Nat :=
  s.toList.flatMap utf8Bytes

/-- `unhex` from `net/url`: the value of a hexadecimal digit byte, or `none`
for a non-hex byte. -/
def unhex (b : Nat) : Option Nat :=
  if 48 ≤ b ∧ b ≤ 57 then some (b - 48)
  else if 65 ≤ b ∧ b ≤ 70 then some (b - 55)
  else if 97 ≤ b ∧ b ≤ 102 then some (b - 87)
  else none

/-- `url.QueryUnescape` on bytes: `%XX` decodes to a byte, `+` (43) decodes
to a space (32), other bytes pass through; a `%` not followed by two hex
digits is an error (`none`). -/
def queryUnescapeBytes : List Nat → Option (List Nat)
  | [] => some []
  | b :: rest =>
    if b = 37 then
      match rest with
      | a :: b2 :: rest2 =>
        match unhex a, unhex b2, queryUnescapeBytes rest2 with
        | some ha, some hb, some tail => some ((16 * ha + hb) :: tail)
        | _, _, _ => none
      | _ => none
    else if b = 43 then (queryUnescapeBytes rest).map (32 :: ·)
    else (queryUnescapeBytes rest).map (b :: ·)

/-- Split a byte list at every occurrence of the byte `sep` (the
`strings.Cut` loop of `url.ParseQuery`). -/
def splitByte (sep : Nat) : List Nat → List (List Nat)
  | [] => [[]]
  | b :: rest =>
    if b = sep then [] :: splitByte sep rest
    else
      match splitByte sep rest with
      | [] => [[b]]
      | seg :: segs => (b :: seg) :: segs

/-- `strings.Cut` at the first occurrence of `sep`: the part before it and
the part after it (the whole list and `[]` when `sep` is absent). -/
def cutByte (sep : Nat) : List Nat → List Nat × List Nat
  | [] => ([], [])
  | b :: rest =>
    if b = sep then ([], rest)
    else
      let p := cutByte sep rest
      (b :: p.1, p.2)

/-- `url.Values`: a map from keys to value lists, embedded as an association
list in first-appearance order with unique keys. -/
abbrev Values : Type := List (List Nat × List (List Nat))

/-- `url.Values.Add`: append the value to the list for the key, creating the
key when absent. -/
def Values.add (vs : Values) (k v : List Nat) : Values :=
  match vs with
  | [] => [(k, [v])]
  | (k0, vals) :: rest =>
    if k0 = k then (k0, vals ++ [v]) :: rest else (k0, vals) :: Values.add rest k v

/-- All values the `Values` map holds for a key (`[]` when absent). -/
def Values.get (vs : Values) (k : List Nat) : List (List Nat) :=
  match vs with
  | [] => []
  | (k0, vals) :: rest => if k0 = k then vals else Values.get rest k

/-- One iteration of the `url.ParseQuery` loop on a `&`-segment: segments
containing `;` are rejected, empty segments skipped, the segment is cut at
the first `=`, both halves are query-unescaped, and pairs whose unescaping
fails are dropped (`req.URL.Query()` discards the error). -/
def parseQuerySeg (vs : Values) (seg : List Nat) : Values :=
  if seg.contains 59 then vs
  else if seg = [] then vs
  else
    let p := cutByte 61 seg
    match queryUnescapeBytes p.1, queryUnescapeBytes p.2 with
    | some k, some v => vs.add k v
    | _, _ => vs

/-- `url.ParseQuery` as used by `req.URL.Query()` (errors discarded),
operating on the raw query's bytes. -/
def parseQueryBytes (raw : List Nat) : Values :=
  (splitByte 38 raw).foldl parseQuerySeg []

/-- `req.URL.Query()`: parse a raw query string. -/
def parseQuery (raw : String) : Values :=
  parseQueryBytes (strBytes raw)

/-- Upper-case hexadecimal digit for a value below 16 (`"0123456789ABCDEF"`
in `net/url`). -/
def hexDigit (n : Nat) : Char :=
  if n < 10 then Char.ofNat (48 + n) else Char.ofNat (55 + n)

/-- `url.QueryEscape` on one byte: ASCII alphanumerics and `-_.~` stay, a
space becomes `+`, every other byte becomes `%XX`. -/
def escapeByte (b : Nat) : List Char :=
  if (48 ≤ b ∧ b ≤ 57) ∨ (65 ≤ b ∧ b ≤ 90) ∨ (97 ≤ b ∧ b ≤ 122) ∨
      b = 45 ∨ b = 95 ∨ b = 46 ∨ b = 126 then [Char.ofNat b]
  else if b = 32 then ['+']
  else ['%', hexDigit (b / 16), hexDigit (b % 16)]

/-- `url.QueryEscape` of a byte string, as characters of the resulting
(ASCII) text. -/
def queryEscape (bs : List Nat) : List Char :=
  bs.flatMap escapeByte

/-- Strict lexicographic order on byte lists: the order `sort.Strings` uses
on Go's keys. -/
def lexLt : List Nat → List Nat → Bool
  | [], [] => false
  | [], _ :: _ => true
  | _ :: _, [] => false
  | a :: as, b :: bs => if a < b then true else if b < a then false else lexLt as bs

/-- Insert one `Values` entry into a key-sorted list of entries. -/
def insertSorted (e : List Nat × List (List Nat)) : Values → Values
  | [] => [e]
  | e0 :: rest => if lexLt e.1 e0.1 then e :: e0 :: rest else e0 :: insertSorted e rest

/-- Sort `Values` entries by key (the `sort.Strings(keys)` step of
`url.Values.Encode`). -/
def sortValues (vs : Values) : Values :=
  vs.foldr insertSorted []

/-- The `key=value` fragments of `url.Values.Encode`, in entry order, each
component query-escaped. -/
def encodePairs (vs : Values) : List (List Char) :=
  vs.flatMap (fun kv => kv.2.map (fun v => queryEscape kv.1 ++ '=' :: queryEscape v))

/-- Join fragments with `&` (the `WriteByte('&')`-before-each-pair-but-the-
first loop of `url.Values.Encode`). -/
def joinAmp : List (List Char) → List Char
  | [] => []
  | [p] => p
  | p :: rest => p ++ '&' :: joinAmp rest

/-- `url.Values.Encode`: sort the keys, escape every key and value, join
with `=` and `&`. -/
def valuesEncode (vs : Values) : String :=
  String.mk (joinAmp (encodePairs (sortValues vs)))

/-! ## Request builder: URL, body and `createRequest` -/

/-- `url.URL` as far as this package touches it: everything before the query
(scheme, host, path) kept verbatim, and the raw query string. -/
structure URL where
  base : String
  rawQuery : String
deriving DecidableEq, Repr

/-- Split a character list at the first occurrence of `sep`: the part
before, and the part after when `sep` occurs. -/
def splitAtFirst (sep : Char) : List Char → List Char × Option (List Char)
  | [] => ([], none)
  | c :: rest =>
    if c = sep then ([], some rest)
    else
      let p := splitAtFirst sep rest
      (c :: p.1, p.2)

/-- `url.Parse`, reduced to the structure this package reads and writes: the
fragment (after `#`) is dropped, the raw query is what stands between `?`
and the fragment, the rest is kept verbatim.  The exotic failure cases of
`url.Parse` (control bytes, malformed escapes in the path) are not
modelled; this package never takes a decision on them beyond wrapping the
error, which the `newRequest` method check below already exercises. -/
def parseURL (s : String) : URL :=
  let noFrag := (splitAtFirst '#' s.toList).1
  let p := splitAtFirst '?' noFrag
  { base := String.mk p.1, rawQuery := String.mk ((p.2).getD []) }

/-- The `Body interface{}` field of `Params`, split by the runtime type test
in `convertToReader`: `nil`, an `io.Reader` (with the stream's content), or
any other Go value.  For the last case the embedding carries the outcome of
`json.NewEncoder(buffer).Encode(body)` for that value — the JSON encoder is
the standard library's, external to this package — as an `Except`:
`.ok s` when the value serialises to `s`, `.error e` when encoding fails
with `e`. -/
inductive Body where
  | absent
  | reader (content : String)
  | value (jsonEncoding : Except GoError String)
deriving Repr

/-- `Params` from src/request.go.  The Go `map[string]string` fields
`Headers` and `Query` become association lists: a list fixes one iteration
order of the map, which Go leaves unspecified. -/
structure Params where
  url : String
  method : String
  headers : List (String × String)
  body : Body
  query : List (String × String)
  timeout : Int
  expectedResponseCode : Int
deriving Repr

/-- `Params` with only defaults: empty URL/method, no headers, no body, no
query, zero timeout, zero expected code. -/
def defaultParams : Params :=
  { url := "", method := "", headers := [], body := .absent, query := [],
    timeout := 0, expectedResponseCode := 0 }

/-- `convertToReader` from src/request.go: `nil` stays `nil`, an `io.Reader`
is returned unchanged, any other value is JSON-encoded into a buffer, a
failing encode being wrapped as
`"failed to parse request body to json: %w"`. -/
def convertToReader (body : Body) : Except GoError (Option String) :=
  match body with
  | .absent => .ok none
  | .reader content => .ok (some content)
  | .value (.ok s) => .ok (some s)
  | .value (.error e) => .error (.wrapped "failed to parse request body to json" e)

/-- `http.Request` as far as this package builds it: method, URL, header
map, and the request payload carried by the body reader (`none` for no
body). -/
structure Request where
  method : String
  url : URL
  header : Header
  body : Option String

/-- `http.NewRequest`: an empty method defaults to `GET`, a method with a
non-token character is rejected (`validMethod` in `net/http`), the URL is
parsed, the header map starts empty. -/
def newRequest (method url : String) (body : Option String) : Except GoError Request :=
  let m := if method = "" then "GET" else method
  if (m.toList.all isTokenChar) = false then
    .error (.message ("net/http: invalid method " ++ m))
  else
    .ok { method := m, url := parseURL url, header := emptyHeader, body := body }

/-- The default-header step of `createRequest`: `Accept` and `Content-Type`
set to `application/json`, then every caller header applied with
`Header.Set`. -/
def buildHeader (callerHeaders : List (String × String)) : Header :=
  callerHeaders.foldl (fun h kv => h.set kv.1 kv.2)
    ((emptyHeader.set "Accept" "application/json").set "Content-Type" "application/json")

/-- The query step of `createRequest`: parse the URL's raw query, `Add`
every caller pair, re-encode. -/
def mergeQuery (rawQuery : String) (query : List (String × String)) : String :=
  valuesEncode (query.foldl (fun vs kv => vs.add (strBytes kv.1) (strBytes kv.2))
    (parseQuery rawQuery))

/-- `createRequest` from src/request.go: convert the body (errors returned
unwrapped), build the request (errors wrapped as
`"failed to create request: %w"`), set the default headers, apply the
caller headers, and, only when the query map is non-empty, merge the query
pairs into the URL's raw query. -/
def createRequest (params : Params) : Except GoError Request :=
  match convertToReader params.body with
  | .error e => .error e
  | .ok reader =>
    match newRequest params.method params.url reader with
    | .error e => .error (.wrapped "failed to create request" e)
    | .ok req =>
      let req1 := { req with header := buildHeader params.headers }
      if params.query ≠ [] then
        .ok { req1 with
          url := { req1.url with rawQuery := mergeQuery req1.url.rawQuery params.query } }
      else
        .ok req1

/-! ## Response-header capture and the three entry points -/

/-- The caller-owned `http.Header` map passed as the optional third argument
of `Do`, embedded extensionally (key → value list). -/
def HeaderMap : Type := String → Option (List String)

/-- One `responseHeader[key] = value` assignment on the destination map. -/
def HeaderMap.assign (m : HeaderMap) (key : String) (value : List String) : HeaderMap :=
  fun k => if k = key then some value else m k

/-- `populateResponseHeader` from src/request.go: no destination means
nothing to do, more than one destination is the
`"too many arguments supplied"` error, exactly one destination receives
every response-header pair by assignment.  The Go function mutates the
destination in place; the embedding returns the updated destination list. -/
def populateResponseHeader (res : HttpResponse) (responseHeaderArg : List HeaderMap) :
    Except GoError (List HeaderMap) :=
  match responseHeaderArg with
  | [] => .ok []
  | [responseHeader] =>
    .ok [res.header.foldl (fun m kv => m.assign kv.1 kv.2) responseHeader]
  | _ => .error (.message "too many arguments supplied")

/-- The oracles for one call's external effects: the outcome of
`client.Do(req)` (the network transport), of
`json.NewDecoder(res.Body).Decode(responseBody)` when it is invoked
(`none` = success), and of `res.Body.Close()` (`none` = success). -/
structure CallEnv where
  send : Except GoError HttpResponse
  decodeResult : Option GoError
  closeResult : Option GoError

/-- The deferred `res.Body.Close()` handler shared by all three entry
points: a close failure becomes the returned error only when `returnErr`
is still `nil`. -/
def applyDeferredClose (closeResult : Option GoError) (returnErr : Option GoError) :
    Option GoError :=
  match returnErr with
  | some e => some e
  | none => closeResult

/-- What a call to `Do` produces, beyond its Go return value: the client the
request was dispatched through (`none` when no dispatch happened), how
often the response body was closed, the final contents of the
caller-supplied header destinations, and the package state after the
call. -/
structure DoResult where
  returnErr : Option GoError
  usedClient : Option HttpClient
  closeCount : Nat
  finalHeaderDests : List HeaderMap
  finalState : ClientState

/-- `Do` from src/request.go: build the request, select the client, send,
and — under the deferred close — check the response code, populate the
header destination, and decode the body unless no destination struct was
supplied (`hasResponseBody = false` embeds `responseBody == nil`). -/
def Do (params : Params) (hasResponseBody : Bool) (responseHeaderArg : List HeaderMap)
    (env : CallEnv) (s : ClientState) : DoResult :=
  match createRequest params with
  | .error e =>
    { returnErr := some (.wrapped "failed to create request" e), usedClient := none,
      closeCount := 0, finalHeaderDests := responseHeaderArg, finalState := s }
  | .ok _ =>
    let p := selectClient params.timeout s
    match env.send with
    | .error e =>
      { returnErr := some (.wrapped "failed to send request" e), usedClient := some p.1,
        closeCount := 0, finalHeaderDests := responseHeaderArg, finalState := p.2 }
    | .ok res =>
      match checkResponseCode res params.expectedResponseCode with
      | some e =>
        { returnErr := applyDeferredClose env.closeResult (some e), usedClient := some p.1,
          closeCount := 1, finalHeaderDests := responseHeaderArg, finalState := p.2 }
      | none =>
        match populateResponseHeader res responseHeaderArg with
        | .error e =>
          { returnErr := applyDeferredClose env.closeResult (some e), usedClient := some p.1,
            closeCount := 1, finalHeaderDests := responseHeaderArg, finalState := p.2 }
        | .ok dests =>
          { returnErr := applyDeferredClose env.closeResult
              (if hasResponseBody then env.decodeResult else none),
            usedClient := some p.1, closeCount := 1, finalHeaderDests := dests,
            finalState := p.2 }

/-- What a call to `DoWithStringResponse` produces: the returned string and
error, plus the same bookkeeping as `DoResult`. -/
structure StringDoResult where
  value : String
  returnErr : Option GoError
  usedClient : Option HttpClient
  closeCount : Nat
  finalState : ClientState

/-- `DoWithStringResponse` from src/request.go: like `Do` but without header
capture, and the body is read in full and returned as a string (a failing
read wrapped as `"failed to read response body: %w"`).  Unlike `Do`, a
`createRequest` failure is returned unwrapped here. -/
def DoWithStringResponse (params : Params) (env : CallEnv) (s : ClientState) :
    StringDoResult :=
  match createRequest params with
  | .error e =>
    { value := "", returnErr := some e, usedClient := none, closeCount := 0, finalState := s }
  | .ok _ =>
    let p := selectClient params.timeout s
    match env.send with
    | .error e =>
      { value := "", returnErr := some (.wrapped "failed to send request" e),
        usedClient := some p.1, closeCount := 0, finalState := p.2 }
    | .ok res =>
      match checkResponseCode res params.expectedResponseCode with
      | some e =>
        { value := "", returnErr := applyDeferredClose env.closeResult (some e),
          usedClient := some p.1, closeCount := 1, finalState := p.2 }
      | none =>
        match res.bodyRead with
        | .error e =>
          { value := "",
            returnErr := applyDeferredClose env.closeResult
              (some (.wrapped "failed to read response body" e)),
            usedClient := some p.1, closeCount := 1, finalState := p.2 }
        | .ok bodyBytes =>
          { value := bodyBytes, returnErr := applyDeferredClose env.closeResult none,
            usedClient := some p.1, closeCount := 1, finalState := p.2 }

/-- What a call to `DoWithCustomClient` produces.  The function never
touches the package's `cachedClient` state, so no state field appears. -/
structure CustomDoResult where
  returnErr : Option GoError
  usedClient : Option HttpClient
  closeCount : Nat

/-- `DoWithCustomClient` from src/request.go: like `Do` but dispatching
through the supplied client and without header capture. -/
def DoWithCustomClient (params : Params) (hasResponseBody : Bool) (client : HttpClient)
    (env : CallEnv) : CustomDoResult :=
  match createRequest params with
  | .error e =>
    { returnErr := some (.wrapped "failed to create request" e), usedClient := none,
      closeCount := 0 }
  | .ok _ =>
    match env.send with
    | .error e =>
      { returnErr := some (.wrapped "failed to send request" e), usedClient := some client,
        closeCount := 0 }
    | .ok res =>
      match checkResponseCode res params.expectedResponseCode with
      | some e =>
        { returnErr := applyDeferredClose env.closeResult (some e),
          usedClient := some client, closeCount := 1 }
      | none =>
        { returnErr := applyDeferredClose env.closeResult
            (if hasResponseBody then env.decodeResult else none),
          usedClient := some client, closeCount := 1 }

/-! ## Characterisations used by the theorems -/

/-- The message `checkResponseCode` attaches to a status failure, as a
function of the body-read outcome: none on a failing read or an empty
body, the body text otherwise. -/
def failureMessage (bodyRead : Except GoError String) : Option String :=
  match bodyRead with
  | .error _ => none
  | .ok s => if s.length = 0 then none else some s

/-- The caller header value that survives `createRequest` for a canonical
key: the value of the last caller pair whose key canonicalises to it. -/
def lastCallerValue : List (String × String) → String → Option String
  | [], _ => none
  | kv :: rest, ck =>
    match lastCallerValue rest ck with
    | some v => some v
    | none => if canonicalMIMEHeaderKey kv.1 = ck then some kv.2 else none

/-- The value list the response-header copy loop leaves at a key: the value
of the last response-header pair with that key, when one exists. -/
def lastHeaderValue : List (String × List String) → String → Option (List String)
  | [], _ => none
  | kv :: rest, k =>
    match lastHeaderValue rest k with
    | some v => some v
    | none => if kv.1 = k then some kv.2 else none

/-- The query values the caller map contributes at a byte-string key. -/
def addedValues (query : List (String × String)) (k : List Nat) : List (List Nat) :=
  (query.filter (fun kv => strBytes kv.1 = k)).map (fun kv => strBytes kv.2)

/-- The `Values` map `createRequest` encodes into the final raw query:
the parsed original query with every caller pair added. -/
def mergedValues (rawQuery : String) (query : List (String × String)) : Values :=
  query.foldl (fun vs kv => vs.add (strBytes kv.1) (strBytes kv.2)) (parseQuery rawQuery)

/-! ## Helper lemmas -/

theorem applyDeferredClose_none (r : Option GoError) : applyDeferredClose none r = r := by
  cases r <;> rfl

theorem applyDeferredClose_some_err (c : Option GoError) (e : GoError) :
    applyDeferredClose c (some e) = some e := rfl

theorem mergeQuery_eq (rawQuery : String) (query : List (String × String)) :
    mergeQuery rawQuery query = valuesEncode (mergedValues rawQuery query) := rfl

theorem Header.set_apply (h : Header) (key value k : String) :
    (h.set key value) k = if k = canonicalMIMEHeaderKey key then some [value] else h k := rfl

theorem HeaderMap.assign_apply (m : HeaderMap) (key : String) (value : List String) (k : String) :
    (m.assign key value) k = if k = key then some value else m k := rfl

theorem canon_content_type : canonicalMIMEHeaderKey "Content-Type" = "Content-Type" := by decide

theorem canon_accept : canonicalMIMEHeaderKey "Accept" = "Accept" := by decide

/-- `Values.get` after one `Values.add`. -/
theorem Values.get_add (vs : Values) (k v k2 : List Nat) :
    Values.get (vs.add k v) k2 =
      if k2 = k then Values.get vs k2 ++ [v] else Values.get vs k2 := by
  induction vs with
  | nil =>
    simp only [Values.add, Values.get]
    by_cases h : k = k2
    · subst h
      simp [Values.get]
    · have h2 : ¬ k2 = k := fun e => h e.symm
      simp [Values.get, h, h2]
  | cons e rest ih =>
    obtain ⟨k0, vals⟩ := e
    simp only [Values.add]
    by_cases h0 : k0 = k
    · subst h0
      rw [if_pos rfl]
      by_cases h2 : k0 = k2
      · subst h2
        simp [Values.get]
      · have h2b : ¬ k2 = k0 := fun e => h2 e.symm
        simp [Values.get, h2, h2b]
    · rw [if_neg h0]
      by_cases h2 : k0 = k2
      · subst h2
        have h2b : ¬ k0 = k := h0
        simp [Values.get, h2b]
      · simp [Values.get, h2, ih]

/-- `Values.get` after adding every caller pair. -/
theorem Values.get_foldl_add (query : List (String × String)) (vs : Values) (k : List Nat) :
    Values.get (query.foldl (fun acc kv => acc.add (strBytes kv.1) (strBytes kv.2)) vs) k =
      Values.get vs k ++ addedValues query k := by
  induction query generalizing vs with
  | nil => simp [addedValues]
  | cons kv rest ih =>
    rw [List.foldl_cons, ih, Values.get_add]
    by_cases h : k = strBytes kv.1
    · rw [if_pos h]
      have h2 : strBytes kv.1 = k := h.symm
      simp [addedValues, List.filter_cons, h2, List.append_assoc]
    · rw [if_neg h]
      have h2 : ¬ strBytes kv.1 = k := fun e => h e.symm
      simp [addedValues, List.filter_cons, h2]

/-- The header map produced by folding `Header.Set` over caller pairs,
pointwise. -/
theorem headerFold_apply (hs : List (String × String)) (h : Header) (k : String) :
    hs.foldl (fun acc kv => acc.set kv.1 kv.2) h k =
      match lastCallerValue hs k with
      | some v => some [v]
      | none => h k := by
  induction hs generalizing h with
  | nil => rfl
  | cons kv rest ih =>
    rw [List.foldl_cons, ih]
    simp only [lastCallerValue]
    cases hr : lastCallerValue rest k with
    | some v => rfl
    | none =>
      rw [Header.set_apply]
      by_cases hc : canonicalMIMEHeaderKey kv.1 = k
      · rw [hc, if_pos rfl, if_pos rfl]
      · have hcb : ¬ k = canonicalMIMEHeaderKey kv.1 := fun e => hc e.symm
        rw [if_neg hcb, if_neg hc]

/-- The header map `buildHeader` produces, pointwise. -/
theorem buildHeader_apply (callerHeaders : List (String × String)) (k : String) :
    buildHeader callerHeaders k =
      match lastCallerValue callerHeaders k with
      | some v => some [v]
      | none =>
        if k = "Content-Type" then some ["application/json"]
        else if k = "Accept" then some ["application/json"]
        else none := by
  rw [buildHeader, headerFold_apply]
  cases lastCallerValue callerHeaders k with
  | some v => rfl
  | none =>
    rw [Header.set_apply, Header.set_apply, canon_content_type, canon_accept]
    rfl

/-- The destination map after the response-header copy loop, pointwise. -/
theorem copyHeaders_apply (hdr : List (String × List String)) (d : HeaderMap) (k : String) :
    (hdr.foldl (fun m kv => m.assign kv.1 kv.2) d) k =
      match lastHeaderValue hdr k with
      | some v => some v
      | none => d k := by
  induction hdr generalizing d with
  | nil => rfl
  | cons kv rest ih =>
    rw [List.foldl_cons, ih]
    simp only [lastHeaderValue]
    cases hr : lastHeaderValue rest k with
    | some v => rfl
    | none =>
      rw [HeaderMap.assign_apply]
      by_cases hc : kv.1 = k
      · rw [hc, if_pos rfl, if_pos rfl]
      · have hcb : ¬ k = kv.1 := fun e => hc e.symm
        rw [if_neg hcb, if_neg hc]

/-- When the request was built, the send succeeded and the response-code
check fails, `Do` returns exactly the check's error. -/
theorem Do_returnErr_of_checkFail (params : Params) (hasBody : Bool)
    (dests : List HeaderMap) (env : CallEnv) (s : ClientState) (req : Request)
    (res : HttpResponse) (e : GoError) (hreq : createRequest params = .ok req)
    (hsend : env.send = .ok res)
    (hchk : checkResponseCode res params.expectedResponseCode = some e) :
    (Do params hasBody dests env s).returnErr = some e := by
  unfold Do
  simp only [hreq, hsend, hchk, applyDeferredClose_some_err]

/-- Same as `Do_returnErr_of_checkFail` for `DoWithStringResponse`. -/
theorem Str_returnErr_of_checkFail (params : Params) (env : CallEnv) (s : ClientState)
    (req : Request) (res : HttpResponse) (e : GoError)
    (hreq : createRequest params = .ok req) (hsend : env.send = .ok res)
    (hchk : checkResponseCode res params.expectedResponseCode = some e) :
    (DoWithStringResponse params env s).returnErr = some e := by
  unfold DoWithStringResponse
  simp only [hreq, hsend, hchk, applyDeferredClose_some_err]

/-- Same as `Do_returnErr_of_checkFail` for `DoWithCustomClient`. -/
theorem Custom_returnErr_of_checkFail (params : Params) (hasBody : Bool)
    (client : HttpClient) (env : CallEnv) (req : Request) (res : HttpResponse)
    (e : GoError) (hreq : createRequest params = .ok req) (hsend : env.send = .ok res)
    (hchk : checkResponseCode res params.expectedResponseCode = some e) :
    (DoWithCustomClient params hasBody client env).returnErr = some e := by
  unfold DoWithCustomClient
  simp only [hreq, hsend, hchk, applyDeferredClose_some_err]

/-- `Do`, decomposed over the deferred close: everything except the returned
error is independent of the close outcome, and the returned error is the
close-free error with the deferred-close handler applied — the close
outcome being consulted exactly when the body was closed. -/
theorem Do_close_decomp (params : Params) (hasBody : Bool) (dests : List HeaderMap)
    (sd : Except GoError HttpResponse) (dr cr : Option GoError) (s : ClientState) :
    (Do params hasBody dests ⟨sd, dr, cr⟩ s).closeCount =
        (Do params hasBody dests ⟨sd, dr, none⟩ s).closeCount ∧
    (Do params hasBody dests ⟨sd, dr, cr⟩ s).usedClient =
        (Do params hasBody dests ⟨sd, dr, none⟩ s).usedClient ∧
    (Do params hasBody dests ⟨sd, dr, cr⟩ s).finalHeaderDests =
        (Do params hasBody dests ⟨sd, dr, none⟩ s).finalHeaderDests ∧
    (Do params hasBody dests ⟨sd, dr, cr⟩ s).finalState =
        (Do params hasBody dests ⟨sd, dr, none⟩ s).finalState ∧
    (Do params hasBody dests ⟨sd, dr, cr⟩ s).returnErr =
      applyDeferredClose
        (if (Do params hasBody dests ⟨sd, dr, none⟩ s).closeCount = 1 then cr else none)
        ((Do params hasBody dests ⟨sd, dr, none⟩ s).returnErr) := by
  cases hc : createRequest params with
  | error e =>
    unfold Do
    simp only [hc]
    simp [applyDeferredClose]
  | ok req =>
    cases sd with
    | error e =>
      unfold Do
      simp only [hc]
      simp [applyDeferredClose]
    | ok res =>
      cases hk : checkResponseCode res params.expectedResponseCode with
      | some e =>
        unfold Do
        simp only [hc, hk]
        simp [applyDeferredClose_none, applyDeferredClose_some_err]
      | none =>
        cases hp : populateResponseHeader res dests with
        | error e =>
          unfold Do
          simp only [hc, hk, hp]
          simp [applyDeferredClose_none, applyDeferredClose_some_err]
        | ok d2 =>
          unfold Do
          simp only [hc, hk, hp]
          simp [applyDeferredClose_none]

/-- `DoWithStringResponse`, decomposed over the deferred close. -/
theorem Str_close_decomp (params : Params) (sd : Except GoError HttpResponse)
    (dr cr : Option GoError) (s : ClientState) :
    (DoWithStringResponse params ⟨sd, dr, cr⟩ s).closeCount =
        (DoWithStringResponse params ⟨sd, dr, none⟩ s).closeCount ∧
    (DoWithStringResponse params ⟨sd, dr, cr⟩ s).usedClient =
        (DoWithStringResponse params ⟨sd, dr, none⟩ s).usedClient ∧
    (DoWithStringResponse params ⟨sd, dr, cr⟩ s).value =
        (DoWithStringResponse params ⟨sd, dr, none⟩ s).value ∧
    (DoWithStringResponse params ⟨sd, dr, cr⟩ s).finalState =
        (DoWithStringResponse params ⟨sd, dr, none⟩ s).finalState ∧
    (DoWithStringResponse params ⟨sd, dr, cr⟩ s).returnErr =
      applyDeferredClose
        (if (DoWithStringResponse params ⟨sd, dr, none⟩ s).closeCount = 1 then cr else none)
        ((DoWithStringResponse params ⟨sd, dr, none⟩ s).returnErr) := by
  cases hc : createRequest params with
  | error e =>
    unfold DoWithStringResponse
    simp only [hc]
    simp [applyDeferredClose]
  | ok req =>
    cases sd with
    | error e =>
      unfold DoWithStringResponse
      simp only [hc]
      simp [applyDeferredClose]
    | ok res =>
      cases hk : checkResponseCode res params.expectedResponseCode with
      | some e =>
        unfold DoWithStringResponse
        simp only [hc, hk]
        simp [applyDeferredClose_none, applyDeferredClose_some_err]
      | none =>
        cases hb : res.bodyRead with
        | error e =>
          unfold DoWithStringResponse
          simp only [hc, hk, hb]
          simp [applyDeferredClose_none, applyDeferredClose_some_err]
        | ok bodyBytes =>
          unfold DoWithStringResponse
          simp only [hc, hk, hb]
          simp [applyDeferredClose_none]

/-- `DoWithCustomClient`, decomposed over the deferred close. -/
theorem Custom_close_decomp (params : Params) (hasBody : Bool) (client : HttpClient)
    (sd : Except GoError HttpResponse) (dr cr : Option GoError) :
    (DoWithCustomClient params hasBody client ⟨sd, dr, cr⟩).closeCount =
        (DoWithCustomClient params hasBody client ⟨sd, dr, none⟩).closeCount ∧
    (DoWithCustomClient params hasBody client ⟨sd, dr, cr⟩).usedClient =
        (DoWithCustomClient params hasBody client ⟨sd, dr, none⟩).usedClient ∧
    (DoWithCustomClient params hasBody client ⟨sd, dr, cr⟩).returnErr =
      applyDeferredClose
        (if (DoWithCustomClient params hasBody client ⟨sd, dr, none⟩).closeCount = 1
          then cr else none)
        ((DoWithCustomClient params hasBody client ⟨sd, dr, none⟩).returnErr) := by
  cases hc : createRequest params with
  | error e =>
    unfold DoWithCustomClient
    simp only [hc]
    simp [applyDeferredClose]
  | ok req =>
    cases sd with
    | error e =>
      unfold DoWithCustomClient
      simp only [hc]
      simp [applyDeferredClose]
    | ok res =>
      cases hk : checkResponseCode res params.expectedResponseCode with
      | some e =>
        unfold DoWithCustomClient
        simp only [hc, hk]
        simp [applyDeferredClose_none, applyDeferredClose_some_err]
      | none =>
        unfold DoWithCustomClient
        simp only [hc, hk]
        simp [applyDeferredClose_none]

/-- The body is closed exactly when the request was built and the send
delivered a response, in all three entry points. -/
theorem closeCount_spec (params : Params) (hasBody : Bool) (dests : List HeaderMap)
    (env : CallEnv) (s : ClientState) (client : HttpClient) (req : Request)
    (res : HttpResponse) (hreq : createRequest params = .ok req)
    (hsend : env.send = .ok res) :
    (Do params hasBody dests env s).closeCount = 1 ∧
    (DoWithStringResponse params env s).closeCount = 1 ∧
    (DoWithCustomClient params hasBody client env).closeCount = 1 := by
  refine ⟨?_, ?_, ?_⟩
  · unfold Do
    simp only [hreq, hsend]
    cases hk : checkResponseCode res params.expectedResponseCode with
    | some e => rfl
    | none =>
      cases hp : populateResponseHeader res dests with
      | error e => rfl
      | ok d2 => rfl
  · unfold DoWithStringResponse
    simp only [hreq, hsend]
    cases hk : checkResponseCode res params.expectedResponseCode with
    | some e => rfl
    | none =>
      cases hb : res.bodyRead with
      | error e => rfl
      | ok bodyBytes => rfl
  · unfold DoWithCustomClient
    simp only [hreq, hsend]
    cases hk : checkResponseCode res params.expectedResponseCode with
    | some e => rfl
    | none => rfl

/-- No body is closed when the send itself fails, in all three entry
points. -/
theorem closeCount_zero_of_sendFail (params : Params) (hasBody : Bool)
    (dests : List HeaderMap) (env : CallEnv) (s : ClientState) (client : HttpClient)
    (e : GoError) (hsend : env.send = .error e) :
    (Do params hasBody dests env s).closeCount = 0 ∧
    (DoWithStringResponse params env s).closeCount = 0 ∧
    (DoWithCustomClient params hasBody client env).closeCount = 0 := by
  refine ⟨?_, ?_, ?_⟩
  · unfold Do
    cases hc : createRequest params with
    | error e2 => rfl
    | ok req => simp only [hsend]
  · unfold DoWithStringResponse
    cases hc : createRequest params with
    | error e2 => rfl
    | ok req => simp only [hsend]
  · unfold DoWithCustomClient
    cases hc : createRequest params with
    | error e2 => rfl
    | ok req => simp only [hsend]

theorem isSuccessCode_iff (c : Int) : isSuccessCode c = true ↔ 200 ≤ c ∧ c ≤ 299 := by
  unfold isSuccessCode
  simp [Bool.and_eq_true, decide_eq_true_eq]

/-- Full case analysis of `checkResponseCode`: mismatch first, then the
2xx test, then the structured error built from the body read. -/
theorem checkResponseCode_cases (res : HttpResponse) (expected : Int) :
    checkResponseCode res expected =
      if expected ≠ 0 ∧ res.statusCode ≠ expected then
        some (.message ("expected response code " ++ toString expected ++
          " but got " ++ toString res.statusCode))
      else if isSuccessCode res.statusCode then none
      else some (.httpError res.statusCode (failureMessage res.bodyRead)) := by
  by_cases h1 : expected ≠ 0 ∧ res.statusCode ≠ expected
  · simp [checkResponseCode, h1]
  · cases hs : isSuccessCode res.statusCode with
    | false =>
      cases hb : res.bodyRead with
      | error e => simp [checkResponseCode, failureMessage, h1, hs, hb]
      | ok str =>
        by_cases hl : str.length = 0 <;>
          simp [checkResponseCode, failureMessage, h1, hs, hb, hl]
    | true => simp [checkResponseCode, h1, hs]

/-- `checkResponseCode` with no expected code set. -/
theorem checkResponseCode_no_expected (res : HttpResponse) :
    checkResponseCode res 0 =
      if isSuccessCode res.statusCode then none
      else some (.httpError res.statusCode (failureMessage res.bodyRead)) := by
  rw [checkResponseCode_cases]
  simp

/-- The fields of a request `newRequest` built. -/
theorem newRequest_fields (method url : String) (b : Option String) (req : Request)
    (h : newRequest method url b = .ok req) :
    req.url = parseURL url ∧ req.header = emptyHeader ∧ req.body = b := by
  unfold newRequest at h
  split at h
  · cases h
    exact ⟨rfl, rfl, rfl⟩
  · simp only [] at h
    split at h
    · cases h
    · cases h
      exact ⟨rfl, rfl, rfl⟩

/-- The fields of a request `createRequest` built. -/
theorem createRequest_ok_shape (params : Params) (req : Request) (ov : Option String)
    (hc : convertToReader params.body = .ok ov)
    (h : createRequest params = .ok req) :
    req.header = buildHeader params.headers ∧ req.body = ov ∧
    req.url.base = (parseURL params.url).base ∧
    req.url.rawQuery =
      (if params.query = [] then (parseURL params.url).rawQuery
        else mergeQuery (parseURL params.url).rawQuery params.query) := by
  unfold createRequest at h
  simp only [hc] at h
  cases hn : newRequest params.method params.url ov with
  | error e =>
    simp only [hn] at h
    cases h
  | ok req0 =>
    obtain ⟨hu, hh, hb⟩ := newRequest_fields _ _ _ _ hn
    simp only [hn] at h
    by_cases hq : params.query = []
    · rw [if_neg (fun hne => hne hq)] at h
      injection h with h2
      subst h2
      refine ⟨rfl, hb, ?_, ?_⟩
      · rw [hu]
      · rw [if_pos hq, hu]
    · rw [if_pos hq] at h
      injection h with h2
      subst h2
      refine ⟨rfl, hb, ?_, ?_⟩
      · rw [hu]
      · rw [if_neg hq, hu]

/-- A `Do` call that returns no error closed the body. -/
theorem Do_none_closeCount (params : Params) (hasBody : Bool) (dests : List HeaderMap)
    (env : CallEnv) (s : ClientState) :
    (Do params hasBody dests env s).returnErr = none →
    (Do params hasBody dests env s).closeCount = 1 := by
  unfold Do
  cases hc : createRequest params with
  | error e => intro h; simp at h
  | ok req =>
    simp only []
    cases hs2 : env.send with
    | error e => intro h; simp at h
    | ok res =>
      simp only []
      cases hk : checkResponseCode res params.expectedResponseCode with
      | some e => intro h; simp [applyDeferredClose_some_err] at h
      | none =>
        simp only []
        cases hp : populateResponseHeader res dests with
        | error e => intro h; simp [applyDeferredClose_some_err] at h
        | ok d2 => intro h; rfl

/-- A `DoWithStringResponse` call that returns no error closed the body. -/
theorem Str_none_closeCount (params : Params) (env : CallEnv) (s : ClientState) :
    (DoWithStringResponse params env s).returnErr = none →
    (DoWithStringResponse params env s).closeCount = 1 := by
  unfold DoWithStringResponse
  cases hc : createRequest params with
  | error e => intro h; simp at h
  | ok req =>
    simp only []
    cases hs2 : env.send with
    | error e => intro h; simp at h
    | ok res =>
      simp only []
      cases hk : checkResponseCode res params.expectedResponseCode with
      | some e => intro h; simp [applyDeferredClose_some_err] at h
      | none =>
        simp only []
        cases hb : res.bodyRead with
        | error e => intro h; simp [applyDeferredClose_some_err] at h
        | ok bodyBytes => intro h; rfl

/-- A `DoWithCustomClient` call that returns no error closed the body. -/
theorem Custom_none_closeCount (params : Params) (hasBody : Bool) (client : HttpClient)
    (env : CallEnv) :
    (DoWithCustomClient params hasBody client env).returnErr = none →
    (DoWithCustomClient params hasBody client env).closeCount = 1 := by
  unfold DoWithCustomClient
  cases hc : createRequest params with
  | error e => intro h; simp at h
  | ok req =>
    simp only []
    cases hs2 : env.send with
    | error e => intro h; simp at h
    | ok res =>
      simp only []
      cases hk : checkResponseCode res params.expectedResponseCode with
      | some e => intro h; simp [applyDeferredClose_some_err] at h
      | none => intro h; rfl

/-! ## Query encoding round trip

`url.Values.Encode` and `url.ParseQuery` are mutual inverses on the maps
this package builds; this lets the query-merge claim speak about the
parameters of the final URL instead of the pre-encoding value map. -/

/-- The byte values of the characters `queryEscape` produces (the escaped
text is ASCII, one byte per character). -/
def ebytes (bs : List Nat) : List Nat :=
  (queryEscape bs).map Char.toNat

/-- Join byte fragments with the `&` byte (38): the byte form of the
encoder's output. -/
def joinB : List (List Nat) → List Nat
  | [] => []
  | [p] => p
  | p :: rest => p ++ 38 :: joinB rest

/-- The flat (key, value) pair sequence `url.Values.Encode` writes, in
output order. -/
def pairsList (vs : Values) : List (List Nat × List Nat) :=
  vs.flatMap (fun kv => kv.2.map (fun v => (kv.1, v)))

/-- The keys of a `Values` map, in entry order. -/
def Values.keys (vs : Values) : List (List Nat) :=
  vs.map Prod.fst

/-- The invariant every `Values` map built by this package satisfies: keys
are distinct, every entry holds at least one value, and every byte is an
actual byte (< 256). -/
def ValuesWF (vs : Values) : Prop :=
  (Values.keys vs).Nodup ∧
  ∀ kv ∈ vs, kv.2 ≠ [] ∧ (∀ b ∈ kv.1, b < 256) ∧ ∀ v ∈ kv.2, ∀ b ∈ v, b < 256

theorem char_toNat_ofNat (n : Nat) (h : n.isValidChar) : (Char.ofNat n).toNat = n := by
  unfold Char.ofNat
  rw [dif_pos h]
  rfl

theorem char_toNat_ofNat_lt (n : Nat) (h : n < 55296) : (Char.ofNat n).toNat = n :=
  char_toNat_ofNat n (Or.inl h)

theorem char_toNat_lt (c : Char) : c.toNat < 1114112 := by
  rcases c.valid with h | ⟨h1, h2⟩
  · exact Nat.lt_trans h (by norm_num)
  · exact h2

theorem utf8Bytes_ascii (c : Char) (h : c.toNat < 128) : utf8Bytes c = [c.toNat] := by
  unfold utf8Bytes
  rw [if_pos h]

theorem utf8Bytes_lt (c : Char) : ∀ b ∈ utf8Bytes c, b < 256 := by
  intro b hb
  have hc := char_toNat_lt c
  unfold utf8Bytes at hb
  simp only [] at hb
  split at hb
  · simp at hb
    omega
  · split at hb
    · simp at hb
      rcases hb with rfl | rfl <;> omega
    · split at hb
      · simp at hb
        rcases hb with rfl | rfl | rfl <;> omega
      · simp at hb
        rcases hb with rfl | rfl | rfl | rfl <;> omega

theorem strBytes_lt (s : String) : ∀ b ∈ strBytes s, b < 256 := by
  intro b hb
  unfold strBytes at hb
  rw [List.mem_flatMap] at hb
  obtain ⟨c, -, hc⟩ := hb
  exact utf8Bytes_lt c b hc

theorem flatMap_utf8_ascii (cs : List Char) (h : ∀ c ∈ cs, c.toNat < 128) :
    cs.flatMap utf8Bytes = cs.map Char.toNat := by
  induction cs with
  | nil => rfl
  | cons c rest ih =>
    rw [List.flatMap_cons, List.map_cons, utf8Bytes_ascii c (h c (List.mem_cons_self c rest)),
      ih (fun x hx => h x (List.mem_cons_of_mem c hx))]
    rfl

theorem hexDigit_toNat (x : Nat) (h : x < 16) :
    (hexDigit x).toNat = if x < 10 then 48 + x else 55 + x := by
  interval_cases x <;> decide

theorem unhex_hexDigit : ∀ x < 16, unhex ((hexDigit x).toNat) = some x := by decide

theorem unhex_lt (x y : Nat) (h : unhex x = some y) : y < 16 := by
  unfold unhex at h
  split at h
  · injection h with h2
    omega
  · split at h
    · injection h with h2
      omega
    · split at h
      · injection h with h2
        omega
      · cases h

theorem ebytes_nil : ebytes [] = [] := rfl

theorem ebytes_cons (b : Nat) (rest : List Nat) :
    ebytes (b :: rest) = (escapeByte b).map Char.toNat ++ ebytes rest := by
  simp [ebytes, queryEscape]

/-- Every character `queryEscape` emits is ASCII and never one of the
separators `&` (38), `;` (59), `=` (61). -/
theorem escapeByte_no_special (b : Nat) (h : b < 256) :
    ∀ x ∈ (escapeByte b).map Char.toNat, x < 128 ∧ x ≠ 38 ∧ x ≠ 59 ∧ x ≠ 61 := by
  intro x hx
  unfold escapeByte at hx
  split at hx
  · rename_i hcond
    rw [List.map_cons, List.map_nil, char_toNat_ofNat_lt b (by omega)] at hx
    simp at hx
    subst hx
    omega
  · rename_i hcond
    split at hx
    · simp at hx
      subst hx
      decide
    · have h1 := hexDigit_toNat (b / 16) (by omega)
      have h2 := hexDigit_toNat (b % 16) (by omega)
      simp at hx
      rcases hx with rfl | rfl | rfl
      · decide
      · rw [h1]
        split <;> omega
      · rw [h2]
        split <;> omega

theorem ebytes_no_special (bs : List Nat) (h : ∀ b ∈ bs, b < 256) :
    ∀ x ∈ ebytes bs, x < 128 ∧ x ≠ 38 ∧ x ≠ 59 ∧ x ≠ 61 := by
  induction bs with
  | nil => intro x hx; cases hx
  | cons b rest ih =>
    intro x hx
    rw [ebytes_cons, List.mem_append] at hx
    rcases hx with hx | hx
    · exact escapeByte_no_special b (h b (List.mem_cons_self b rest)) x hx
    · exact ih (fun y hy => h y (List.mem_cons_of_mem b hy)) x hx

/-- Query-unescaping inverts query-escaping on byte strings. -/
theorem unescape_escape (bs : List Nat) (h : ∀ b ∈ bs, b < 256) :
    queryUnescapeBytes (ebytes bs) = some bs := by
  induction bs with
  | nil => rfl
  | cons b rest ih =>
    have hb : b < 256 := h b (List.mem_cons_self b rest)
    have hrest : ∀ x ∈ rest, x < 256 := fun x hx => h x (List.mem_cons_of_mem b hx)
    have ihr := ih hrest
    rw [ebytes_cons]
    unfold escapeByte
    split
    · rename_i hcond
      rw [List.map_cons, List.map_nil, char_toNat_ofNat_lt b (by omega),
        List.cons_append, List.nil_append]
      unfold queryUnescapeBytes
      rw [if_neg (by omega), if_neg (by omega), ihr]
      rfl
    · rename_i hcond
      split
      · rename_i h32
        rw [List.map_cons, List.map_nil, List.cons_append, List.nil_append]
        unfold queryUnescapeBytes
        rw [show ('+').toNat = 43 from rfl]
        rw [if_neg (by omega), if_pos rfl, ihr, h32]
        rfl
      · rename_i h32
        have hu1 := unhex_hexDigit (b / 16) (by omega)
        have hu2 := unhex_hexDigit (b % 16) (by omega)
        rw [List.map_cons, List.map_cons, List.map_cons, List.map_nil,
          show ('%').toNat = 37 from rfl, List.cons_append, List.cons_append,
          List.cons_append, List.nil_append]
        unfold queryUnescapeBytes
        rw [if_pos rfl]
        simp only [hu1, hu2, ihr]
        rw [show 16 * (b / 16) + b % 16 = b from by omega]

theorem cutByte_append (sep : Nat) (a b : List Nat) (h : sep ∉ a) :
    cutByte sep (a ++ sep :: b) = (a, b) := by
  induction a with
  | nil =>
    rw [List.nil_append]
    simp [cutByte]
  | cons x xs ih =>
    have hx : ¬ x = sep := fun e => h (by rw [e]; exact List.mem_cons_self sep xs)
    have hxs : sep ∉ xs := fun m => h (List.mem_cons_of_mem x m)
    rw [List.cons_append]
    unfold cutByte
    simp only []
    rw [if_neg hx, ih hxs]

theorem splitByte_append (a b : List Nat) (h : 38 ∉ a) :
    splitByte 38 (a ++ 38 :: b) = a :: splitByte 38 b := by
  induction a with
  | nil =>
    rw [List.nil_append]
    rw [splitByte]
    rw [if_pos rfl]
  | cons x xs ih =>
    have hx : ¬ x = 38 := fun e => h (by rw [e]; exact List.mem_cons_self 38 xs)
    have hxs : (38 : Nat) ∉ xs := fun m => h (List.mem_cons_of_mem x m)
    rw [List.cons_append]
    rw [splitByte]
    rw [if_neg hx, ih hxs]

theorem splitByte_no_sep (a : List Nat) (h : 38 ∉ a) : splitByte 38 a = [a] := by
  induction a with
  | nil => rfl
  | cons x xs ih =>
    have hx : ¬ x = 38 := fun e => h (by rw [e]; exact List.mem_cons_self 38 xs)
    have hxs : (38 : Nat) ∉ xs := fun m => h (List.mem_cons_of_mem x m)
    unfold splitByte
    rw [if_neg hx, ih hxs]

theorem joinB_map_toNat (l : List (List Char)) :
    (joinAmp l).map Char.toNat = joinB (l.map (List.map Char.toNat)) := by
  induction l with
  | nil => rfl
  | cons p rest ih =>
    cases rest with
    | nil => rfl
    | cons q rest2 =>
      show (p ++ '&' :: joinAmp (q :: rest2)).map Char.toNat =
        p.map Char.toNat ++ 38 :: joinB ((q :: rest2).map (List.map Char.toNat))
      rw [List.map_append, List.map_cons, ih]
      rfl

/-- Parsing the joined fragments folds the segment parser over the
fragments, when no fragment contains the separator. -/
theorem parseQueryBytes_joinB (frags : List (List Nat)) (h : ∀ f ∈ frags, 38 ∉ f) :
    ∀ vs : Values, (splitByte 38 (joinB frags)).foldl parseQuerySeg vs =
      frags.foldl parseQuerySeg vs := by
  induction frags with
  | nil =>
    intro vs
    show (splitByte 38 []).foldl parseQuerySeg vs = vs
    rfl
  | cons f rest ih =>
    intro vs
    cases rest with
    | nil =>
      show (splitByte 38 f).foldl parseQuerySeg vs = parseQuerySeg vs f
      rw [splitByte_no_sep f (h f (List.mem_cons_self f []))]
      rfl
    | cons g rest2 =>
      show (splitByte 38 (f ++ 38 :: joinB (g :: rest2))).foldl parseQuerySeg vs = _
      rw [splitByte_append f _ (h f (List.mem_cons_self f (g :: rest2)))]
      rw [List.foldl_cons]
      exact ih (fun x hx => h x (List.mem_cons_of_mem f hx)) (parseQuerySeg vs f)

/-- Parsing one `key=value` fragment of the encoder adds exactly that
pair. -/
theorem parseQuerySeg_frag (vs0 : Values) (k v : List Nat)
    (hk : ∀ b ∈ k, b < 256) (hv : ∀ b ∈ v, b < 256) :
    parseQuerySeg vs0 (ebytes k ++ 61 :: ebytes v) = vs0.add k v := by
  have hknos := ebytes_no_special k hk
  have hvnos := ebytes_no_special v hv
  have h59 : (59 : Nat) ∉ ebytes k ++ 61 :: ebytes v := by
    intro hm
    rw [List.mem_append, List.mem_cons] at hm
    rcases hm with hm | hm | hm
    · exact (hknos 59 hm).2.2.1 rfl
    · exact absurd hm (by omega)
    · exact (hvnos 59 hm).2.2.1 rfl
  have h61k : (61 : Nat) ∉ ebytes k := fun hm => (hknos 61 hm).2.2.2 rfl
  unfold parseQuerySeg
  rw [if_neg (by simp [h59]), if_neg (by simp)]
  simp only []
  rw [cutByte_append 61 (ebytes k) (ebytes v) h61k]
  simp only []
  rw [unescape_escape k hk, unescape_escape v hv]

theorem add_ne_key (k0 : List Nat) (vals0 : List (List Nat)) (tail : Values)
    (k v : List Nat) (h : ¬ k0 = k) :
    Values.add ((k0, vals0) :: tail) k v = (k0, vals0) :: Values.add tail k v := by
  simp [Values.add, h]

/-- Adding pairs whose keys differ from the head entry's key walks past the
head entry. -/
theorem foldl_add_past (ps : List (List Nat × List Nat))
    (e : List Nat × List (List Nat)) (h : ∀ p ∈ ps, ¬ p.1 = e.1) :
    ∀ vs0 : Values,
      ps.foldl (fun acc p => Values.add acc p.1 p.2) (e :: vs0) =
        e :: ps.foldl (fun acc p => Values.add acc p.1 p.2) vs0 := by
  induction ps with
  | nil => intro vs0; rfl
  | cons p rest ih =>
    intro vs0
    simp only [List.foldl_cons]
    obtain ⟨k0, vals0⟩ := e
    rw [add_ne_key k0 vals0 vs0 p.1 p.2
      (fun e2 => h p (List.mem_cons_self p rest) e2.symm)]
    exact ih (fun q hq => h q (List.mem_cons_of_mem p hq)) (Values.add vs0 p.1 p.2)

/-- Adding a run of values with one key extends that key's entry in
order. -/
theorem foldl_add_run (k : List Nat) (vals1 : List (List Nat)) :
    ∀ vals : List (List Nat),
      (vals1.map (fun v => (k, v))).foldl
          (fun acc p => Values.add acc p.1 p.2) [(k, vals)] =
        [(k, vals ++ vals1)] := by
  induction vals1 with
  | nil => intro vals; simp
  | cons v vtail ih =>
    intro vals
    simp only [List.map_cons, List.foldl_cons]
    rw [show Values.add [(k, vals)] k v = [(k, vals ++ [v])] from by simp [Values.add]]
    rw [ih (vals ++ [v])]
    simp

theorem pairsList_cons (k : List Nat) (vals : List (List Nat)) (rest : Values) :
    pairsList ((k, vals) :: rest) = vals.map (fun v => (k, v)) ++ pairsList rest := by
  simp [pairsList]

theorem pairsList_key_mem (rest : Values) (p : List Nat × List Nat)
    (h : p ∈ pairsList rest) : p.1 ∈ Values.keys rest := by
  unfold pairsList at h
  rw [List.mem_flatMap] at h
  obtain ⟨kv, hkv, hp⟩ := h
  rw [List.mem_map] at hp
  obtain ⟨v, -, hv⟩ := hp
  rw [← hv]
  exact List.mem_map_of_mem Prod.fst hkv

/-- Folding the encoder's pair sequence back through `Values.Add` rebuilds
the map. -/
theorem foldl_add_pairsList (vs : Values) (hwf : ValuesWF vs) :
    (pairsList vs).foldl (fun acc p => Values.add acc p.1 p.2) [] = vs := by
  induction vs with
  | nil => rfl
  | cons e rest ih =>
    obtain ⟨k, vals⟩ := e
    obtain ⟨hnd, hmem⟩ := hwf
    obtain ⟨hne, hkb, hvb⟩ := hmem (k, vals) (List.mem_cons_self (k, vals) rest)
    have hnd2 : (Values.keys ((k, vals) :: rest)).Nodup := hnd
    rw [show Values.keys ((k, vals) :: rest) = k :: Values.keys rest from rfl,
      List.nodup_cons] at hnd2
    obtain ⟨hknotin, hndrest⟩ := hnd2
    rw [pairsList_cons, List.foldl_append]
    cases vals with
    | nil => exact absurd rfl hne
    | cons v vtail =>
      simp only [List.map_cons, List.foldl_cons]
      rw [show Values.add ([] : Values) k v = [(k, [v])] from rfl]
      rw [foldl_add_run k vtail [v]]
      rw [foldl_add_past (pairsList rest) (k, [v] ++ vtail)
        (fun p hp e2 => hknotin (by
          have h3 := pairsList_key_mem rest p hp
          rw [e2] at h3
          exact h3)) []]
      rw [ih ⟨hndrest, fun kv hm => hmem kv (List.mem_cons_of_mem (k, v :: vtail) hm)⟩]
      simp

theorem insertSorted_perm (e : List Nat × List (List Nat)) (l : Values) :
    List.Perm (insertSorted e l) (e :: l) := by
  induction l with
  | nil => exact List.Perm.refl _
  | cons e0 rest ih =>
    unfold insertSorted
    by_cases h : lexLt e.1 e0.1
    · rw [if_pos h]
    · rw [if_neg h]
      exact (ih.cons e0).trans (List.Perm.swap e e0 rest)

theorem sortValues_perm (vs : Values) : List.Perm (sortValues vs) vs := by
  induction vs with
  | nil => exact List.Perm.refl _
  | cons e rest ih =>
    rw [show sortValues (e :: rest) = insertSorted e (sortValues rest) from rfl]
    exact (insertSorted_perm e (sortValues rest)).trans (ih.cons e)

theorem get_insertSorted (e : List Nat × List (List Nat)) (l : Values) (k : List Nat)
    (h : e.1 ∉ Values.keys l) :
    Values.get (insertSorted e l) k = if e.1 = k then e.2 else Values.get l k := by
  induction l with
  | nil => rfl
  | cons e0 rest ih =>
    obtain ⟨k0, vals0⟩ := e0
    have hk0 : ¬ e.1 = k0 :=
      fun e2 => h (by rw [e2]; exact List.mem_cons_self k0 (Values.keys rest))
    have hrest : e.1 ∉ Values.keys rest := fun m => h (List.mem_cons_of_mem k0 m)
    unfold insertSorted
    by_cases hlt : lexLt e.1 k0
    · rw [if_pos hlt]
      obtain ⟨k1, vals1⟩ := e
      by_cases he : k1 = k
      · simp [Values.get, he]
      · simp [Values.get, he]
    · rw [if_neg hlt]
      by_cases h0 : k0 = k
      · subst h0
        have : ¬ e.1 = k0 := hk0
        simp [Values.get, this]
      · simp [Values.get, h0, ih hrest]

theorem get_sortValues (vs : Values) (h : (Values.keys vs).Nodup) (k : List Nat) :
    Values.get (sortValues vs) k = Values.get vs k := by
  induction vs with
  | nil => rfl
  | cons e rest ih =>
    rw [show Values.keys (e :: rest) = e.1 :: Values.keys rest from rfl,
      List.nodup_cons] at h
    obtain ⟨hk, hnd⟩ := h
    rw [show sortValues (e :: rest) = insertSorted e (sortValues rest) from rfl]
    have hk2 : e.1 ∉ Values.keys (sortValues rest) := fun m =>
      hk (((sortValues_perm rest).map Prod.fst).mem_iff.mp m)
    rw [get_insertSorted e (sortValues rest) k hk2, ih hnd]
    obtain ⟨k1, vals1⟩ := e
    by_cases he : k1 = k
    · simp [Values.get, he]
    · simp [Values.get, he]

theorem sortValues_wf (vs : Values) (h : ValuesWF vs) : ValuesWF (sortValues vs) := by
  obtain ⟨hnd, hmem⟩ := h
  constructor
  · exact ((sortValues_perm vs).map Prod.fst).nodup_iff.mpr hnd
  · intro kv hm
    exact hmem kv ((sortValues_perm vs).mem_iff.mp hm)

theorem keys_add (vs : Values) (k v : List Nat) :
    Values.keys (vs.add k v) =
      if k ∈ Values.keys vs then Values.keys vs else Values.keys vs ++ [k] := by
  induction vs with
  | nil => simp [Values.add, Values.keys]
  | cons e rest ih =>
    obtain ⟨k0, vals0⟩ := e
    by_cases h : k0 = k
    · subst h
      rw [show Values.add ((k0, vals0) :: rest) k0 v = (k0, vals0 ++ [v]) :: rest from
        by simp [Values.add]]
      rw [show Values.keys ((k0, vals0 ++ [v]) :: rest) = k0 :: Values.keys rest from rfl,
        show Values.keys ((k0, vals0) :: rest) = k0 :: Values.keys rest from rfl]
      rw [if_pos (List.mem_cons_self k0 (Values.keys rest))]
    · rw [add_ne_key k0 vals0 rest k v h]
      rw [show Values.keys ((k0, vals0) :: Values.add rest k v) =
        k0 :: Values.keys (Values.add rest k v) from rfl]
      rw [show Values.keys ((k0, vals0) :: rest) = k0 :: Values.keys rest from rfl, ih]
      have hne : ¬ k = k0 := fun e2 => h e2.symm
      by_cases h2 : k ∈ Values.keys rest
      · rw [if_pos h2, if_pos (List.mem_cons_of_mem k0 h2)]
      · rw [if_neg h2, if_neg (by
          intro hm
          rcases List.mem_cons.mp hm with hm2 | hm2
          · exact hne hm2
          · exact h2 hm2)]
        rfl

/-- Every entry of `Values.add vs k v` satisfies a property that holds of
the old entries, of a fresh `(k, [v])` entry, and is preserved by appending
`v` to a value list. -/
theorem add_entries (vs : Values) (k v : List Nat)
    (P : List Nat × List (List Nat) → Prop)
    (hvs : ∀ kv ∈ vs, P kv) (hnew : P (k, [v]))
    (hext : ∀ k2 vals, P (k2, vals) → P (k2, vals ++ [v])) :
    ∀ kv ∈ vs.add k v, P kv := by
  induction vs with
  | nil =>
    intro kv hm
    rw [show Values.add ([] : Values) k v = [(k, [v])] from rfl] at hm
    rcases List.mem_cons.mp hm with rfl | hm2
    · exact hnew
    · cases hm2
  | cons e rest ih =>
    obtain ⟨k0, vals0⟩ := e
    by_cases h : k0 = k
    · subst h
      rw [show Values.add ((k0, vals0) :: rest) k0 v = (k0, vals0 ++ [v]) :: rest from
        by simp [Values.add]]
      intro kv hm
      rcases List.mem_cons.mp hm with rfl | hm2
      · exact hext k0 vals0 (hvs (k0, vals0) (List.mem_cons_self _ _))
      · exact hvs kv (List.mem_cons_of_mem _ hm2)
    · rw [add_ne_key k0 vals0 rest k v h]
      intro kv hm
      rcases List.mem_cons.mp hm with rfl | hm2
      · exact hvs (k0, vals0) (List.mem_cons_self _ _)
      · exact ih (fun q hq => hvs q (List.mem_cons_of_mem _ hq)) kv hm2

theorem add_wf (vs : Values) (k v : List Nat) (hwf : ValuesWF vs)
    (hk : ∀ b ∈ k, b < 256) (hv : ∀ b ∈ v, b < 256) : ValuesWF (vs.add k v) := by
  obtain ⟨hnd, hmem⟩ := hwf
  constructor
  · rw [keys_add]
    by_cases h : k ∈ Values.keys vs
    · rw [if_pos h]
      exact hnd
    · rw [if_neg h]
      rw [List.nodup_append]
      exact ⟨hnd, List.nodup_singleton k, by simpa using fun hm => h hm⟩
  · refine add_entries vs k v _ hmem ⟨by simp, hk, ?_⟩ ?_
    · intro v2 hv2 b hb
      rw [List.mem_singleton] at hv2
      subst hv2
      exact hv b hb
    · intro k2 vals hP
      refine ⟨by simp, hP.2.1, ?_⟩
      intro v2 hv2 b hb
      rcases List.mem_append.mp hv2 with hm | hm
      · exact hP.2.2 v2 hm b hb
      · rw [List.mem_singleton] at hm
        subst hm
        exact hv b hb

theorem unescape_bounded (n : Nat) :
    ∀ (bs out : List Nat), bs.length ≤ n → queryUnescapeBytes bs = some out →
      (∀ b ∈ bs, b < 256) → ∀ b ∈ out, b < 256 := by
  induction n with
  | zero =>
    intro bs out hlen h hin
    cases bs with
    | nil =>
      injection h with h2
      subst h2
      intro b hb
      cases hb
    | cons b rest => simp at hlen
  | succ n ih =>
    intro bs out hlen h hin
    cases bs with
    | nil =>
      injection h with h2
      subst h2
      intro b hb
      cases hb
    | cons b rest =>
      unfold queryUnescapeBytes at h
      by_cases h37 : b = 37
      · rw [if_pos h37] at h
        cases rest with
        | nil => cases h
        | cons a rest1 =>
          cases rest1 with
          | nil => cases h
          | cons b2 rest2 =>
            cases ha : unhex a with
            | none =>
              simp only [ha] at h
              cases h
            | some x1 =>
              cases hb2 : unhex b2 with
              | none =>
                simp only [ha, hb2] at h
                cases h
              | some x2 =>
                cases ht : queryUnescapeBytes rest2 with
                | none =>
                  simp only [ha, hb2, ht] at h
                  cases h
                | some tail =>
                  simp only [ha, hb2, ht] at h
                  injection h with h2
                  subst h2
                  intro y hy
                  rcases List.mem_cons.mp hy with rfl | hm
                  · have hx1 := unhex_lt a x1 ha
                    have hx2 := unhex_lt b2 x2 hb2
                    omega
                  · exact ih rest2 tail (by simp at hlen ⊢; omega) ht
                      (fun z hz => hin z (by simp [hz])) y hm
      · rw [if_neg h37] at h
        by_cases h43 : b = 43
        · rw [if_pos h43] at h
          cases ht : queryUnescapeBytes rest with
          | none =>
            simp only [ht, Option.map_none'] at h
            cases h
          | some tail =>
            rw [ht, Option.map_some'] at h
            injection h with h2
            subst h2
            intro y hy
            rcases List.mem_cons.mp hy with rfl | hm
            · omega
            · exact ih rest tail (by simp at hlen ⊢; omega) ht
                (fun z hz => hin z (by simp [hz])) y hm
        · rw [if_neg h43] at h
          cases ht : queryUnescapeBytes rest with
          | none =>
            simp only [ht, Option.map_none'] at h
            cases h
          | some tail =>
            rw [ht, Option.map_some'] at h
            injection h with h2
            subst h2
            intro y hy
            rcases List.mem_cons.mp hy with rfl | hm
            · exact hin _ (List.mem_cons_self _ _)
            · exact ih rest tail (by simp at hlen ⊢; omega) ht
                (fun z hz => hin z (by simp [hz])) y hm

theorem cutByte_subset (sep : Nat) (l : List Nat) :
    (∀ x ∈ (cutByte sep l).1, x ∈ l) ∧ (∀ x ∈ (cutByte sep l).2, x ∈ l) := by
  induction l with
  | nil => exact ⟨fun x hx => absurd hx (List.not_mem_nil x), fun x hx => absurd hx (List.not_mem_nil x)⟩
  | cons b rest ih =>
    unfold cutByte
    by_cases h : b = sep
    · rw [if_pos h]
      exact ⟨fun x hx => absurd hx (List.not_mem_nil x), fun x hx => List.mem_cons_of_mem b hx⟩
    · rw [if_neg h]
      simp only []
      constructor
      · intro x hx
        rcases List.mem_cons.mp hx with rfl | hm
        · exact List.mem_cons_self _ _
        · exact List.mem_cons_of_mem b (ih.1 x hm)
      · intro x hx
        exact List.mem_cons_of_mem b (ih.2 x hx)

theorem splitByte_subset (sep : Nat) (l : List Nat) :
    ∀ seg ∈ splitByte sep l, ∀ x ∈ seg, x ∈ l := by
  induction l with
  | nil =>
    intro seg hseg x hx
    rw [show splitByte sep [] = [[]] from rfl] at hseg
    rcases List.mem_cons.mp hseg with rfl | hm
    · cases hx
    · cases hm
  | cons b rest ih =>
    intro seg hseg x hx
    unfold splitByte at hseg
    by_cases h : b = sep
    · rw [if_pos h] at hseg
      rcases List.mem_cons.mp hseg with rfl | hm
      · cases hx
      · exact List.mem_cons_of_mem b (ih seg hm x hx)
    · rw [if_neg h] at hseg
      cases hsp : splitByte sep rest with
      | nil =>
        rw [hsp] at hseg
        rcases List.mem_cons.mp hseg with rfl | hm
        · rcases List.mem_cons.mp hx with rfl | hm2
          · exact List.mem_cons_self _ _
          · cases hm2
        · cases hm
      | cons s0 segs =>
        rw [hsp] at hseg
        rcases List.mem_cons.mp hseg with rfl | hm
        · rcases List.mem_cons.mp hx with rfl | hm2
          · exact List.mem_cons_self _ _
          · exact List.mem_cons_of_mem b
              (ih s0 (by rw [hsp]; exact List.mem_cons_self _ _) x hm2)
        · exact List.mem_cons_of_mem b
            (ih seg (by rw [hsp]; exact List.mem_cons_of_mem s0 hm) x hx)

theorem parseQuerySeg_wf (vs : Values) (seg : List Nat) (hwf : ValuesWF vs)
    (hseg : ∀ b ∈ seg, b < 256) : ValuesWF (parseQuerySeg vs seg) := by
  unfold parseQuerySeg
  split
  · exact hwf
  · split
    · exact hwf
    · simp only []
      cases h1 : queryUnescapeBytes (cutByte 61 seg).1 with
      | none => exact hwf
      | some k =>
        cases h2 : queryUnescapeBytes (cutByte 61 seg).2 with
        | none => exact hwf
        | some v =>
          exact add_wf vs k v hwf
            (unescape_bounded (cutByte 61 seg).1.length _ _ le_rfl h1
              (fun b hb => hseg b ((cutByte_subset 61 seg).1 b hb)))
            (unescape_bounded (cutByte 61 seg).2.length _ _ le_rfl h2
              (fun b hb => hseg b ((cutByte_subset 61 seg).2 b hb)))

theorem foldl_seg_wf (segs : List (List Nat)) :
    ∀ vs : Values, ValuesWF vs → (∀ f ∈ segs, ∀ b ∈ f, b < 256) →
      ValuesWF (segs.foldl parseQuerySeg vs) := by
  induction segs with
  | nil => intro vs hwf h; exact hwf
  | cons f rest ih =>
    intro vs hwf h
    rw [List.foldl_cons]
    exact ih (parseQuerySeg vs f)
      (parseQuerySeg_wf vs f hwf (h f (List.mem_cons_self f rest)))
      (fun g hg => h g (List.mem_cons_of_mem f hg))

theorem parseQueryBytes_wf (raw : List Nat) (h : ∀ b ∈ raw, b < 256) :
    ValuesWF (parseQueryBytes raw) := by
  unfold parseQueryBytes
  exact foldl_seg_wf (splitByte 38 raw) [] ⟨List.nodup_nil, fun kv hm => by cases hm⟩
    (fun f hf b hb => h b (splitByte_subset 38 raw f hf b hb))

theorem parseQuery_wf (raw : String) : ValuesWF (parseQuery raw) :=
  parseQueryBytes_wf (strBytes raw) (strBytes_lt raw)

theorem foldl_addAll_wf (q : List (String × String)) :
    ∀ vs : Values, ValuesWF vs →
      ValuesWF (q.foldl (fun vs kv => vs.add (strBytes kv.1) (strBytes kv.2)) vs) := by
  induction q with
  | nil => intro vs h; exact h
  | cons kv rest ih =>
    intro vs h
    rw [List.foldl_cons]
    exact ih _ (add_wf vs _ _ h (strBytes_lt kv.1) (strBytes_lt kv.2))

theorem mergedValues_wf (raw : String) (q : List (String × String)) :
    ValuesWF (mergedValues raw q) :=
  foldl_addAll_wf q (parseQuery raw) (parseQuery_wf raw)

theorem pairsList_bounded (vs : Values) (hwf : ValuesWF vs) :
    ∀ p ∈ pairsList vs, (∀ b ∈ p.1, b < 256) ∧ (∀ b ∈ p.2, b < 256) := by
  intro p hp
  unfold pairsList at hp
  rw [List.mem_flatMap] at hp
  obtain ⟨kv, hkv, hp2⟩ := hp
  rw [List.mem_map] at hp2
  obtain ⟨v, hv, he⟩ := hp2
  obtain ⟨-, hkb, hvb⟩ := hwf.2 kv hkv
  subst he
  exact ⟨hkb, hvb v hv⟩

theorem queryEscape_ascii (bs : List Nat) (h : ∀ b ∈ bs, b < 256) :
    ∀ c ∈ queryEscape bs, c.toNat < 128 := by
  intro c hc
  have hm : c.toNat ∈ ebytes bs := List.mem_map_of_mem Char.toNat hc
  exact (ebytes_no_special bs h c.toNat hm).1

theorem encodePairs_ascii (vs : Values) (hwf : ValuesWF vs) :
    ∀ f ∈ encodePairs vs, ∀ c ∈ f, c.toNat < 128 := by
  intro f hf c hc
  unfold encodePairs at hf
  rw [List.mem_flatMap] at hf
  obtain ⟨kv, hkv, hf2⟩ := hf
  rw [List.mem_map] at hf2
  obtain ⟨v, hv, he⟩ := hf2
  obtain ⟨-, hkb, hvb⟩ := hwf.2 kv hkv
  subst he
  rcases List.mem_append.mp hc with hm | hm
  · exact queryEscape_ascii kv.1 hkb c hm
  · rcases List.mem_cons.mp hm with rfl | hm2
    · decide
    · exact queryEscape_ascii v (hvb v hv) c hm2

theorem joinAmp_mem (l : List (List Char)) (c : Char) (h : c ∈ joinAmp l) :
    c = '&' ∨ ∃ f ∈ l, c ∈ f := by
  induction l with
  | nil => cases h
  | cons p rest ih =>
    cases rest with
    | nil =>
      right
      exact ⟨p, List.mem_cons_self _ _, h⟩
    | cons q rest2 =>
      rw [show joinAmp (p :: q :: rest2) = p ++ '&' :: joinAmp (q :: rest2) from rfl] at h
      rcases List.mem_append.mp h with hm | hm
      · right
        exact ⟨p, List.mem_cons_self _ _, hm⟩
      · rcases List.mem_cons.mp hm with rfl | hm2
        · left
          rfl
        · rcases ih hm2 with h1 | ⟨f, hf, hcf⟩
          · left
            exact h1
          · right
            exact ⟨f, List.mem_cons_of_mem p hf, hcf⟩

/-- The encoder's fragments, in byte form: one `ebytes k ++ 61 :: ebytes v`
per (key, value) pair. -/
theorem encodePairs_bytes (vs : Values) :
    (encodePairs vs).map (List.map Char.toNat) =
      (pairsList vs).map (fun p => ebytes p.1 ++ 61 :: ebytes p.2) := by
  unfold encodePairs pairsList
  rw [List.map_flatMap, List.map_flatMap]
  congr 1
  funext kv
  rw [List.map_map, List.map_map]
  congr 1
  funext v
  show (queryEscape kv.1 ++ '=' :: queryEscape v).map Char.toNat = _
  rw [List.map_append, List.map_cons]
  rfl

theorem fragsB_no38 (ps : List (List Nat × List Nat))
    (h : ∀ p ∈ ps, (∀ b ∈ p.1, b < 256) ∧ (∀ b ∈ p.2, b < 256)) :
    ∀ f ∈ ps.map (fun p => ebytes p.1 ++ 61 :: ebytes p.2), (38 : Nat) ∉ f := by
  intro f hf hm
  rw [List.mem_map] at hf
  obtain ⟨p, hp, he⟩ := hf
  subst he
  rcases List.mem_append.mp hm with h1 | h1
  · exact (ebytes_no_special p.1 (h p hp).1 38 h1).2.1 rfl
  · rcases List.mem_cons.mp h1 with he2 | h2
    · exact absurd he2 (by omega)
    · exact (ebytes_no_special p.2 (h p hp).2 38 h2).2.1 rfl

theorem foldl_seg_frags (ps : List (List Nat × List Nat))
    (h : ∀ p ∈ ps, (∀ b ∈ p.1, b < 256) ∧ (∀ b ∈ p.2, b < 256)) :
    ∀ vs0 : Values,
      (ps.map (fun p => ebytes p.1 ++ 61 :: ebytes p.2)).foldl parseQuerySeg vs0 =
        ps.foldl (fun acc p => Values.add acc p.1 p.2) vs0 := by
  induction ps with
  | nil => intro vs0; rfl
  | cons p rest ih =>
    intro vs0
    simp only [List.map_cons, List.foldl_cons]
    rw [parseQuerySeg_frag vs0 p.1 p.2 (h p (List.mem_cons_self p rest)).1
      (h p (List.mem_cons_self p rest)).2]
    exact ih (fun q hq => h q (List.mem_cons_of_mem p hq)) (Values.add vs0 p.1 p.2)

/-- `url.ParseQuery` inverts `url.Values.Encode` on well-formed value maps,
up to the key sort the encoder applies. -/
theorem parseQuery_valuesEncode (vs : Values) (hwf : ValuesWF vs) :
    parseQuery (valuesEncode vs) = sortValues vs := by
  have hswf := sortValues_wf vs hwf
  have hpb := pairsList_bounded (sortValues vs) hswf
  have hascii : ∀ c ∈ joinAmp (encodePairs (sortValues vs)), c.toNat < 128 := by
    intro c hc
    rcases joinAmp_mem _ c hc with rfl | ⟨f, hf, hcf⟩
    · decide
    · exact encodePairs_ascii (sortValues vs) hswf f hf c hcf
  show parseQueryBytes (strBytes (String.mk (joinAmp (encodePairs (sortValues vs))))) = _
  rw [show strBytes (String.mk (joinAmp (encodePairs (sortValues vs)))) =
      (joinAmp (encodePairs (sortValues vs))).flatMap utf8Bytes from rfl]
  rw [flatMap_utf8_ascii _ hascii, joinB_map_toNat, encodePairs_bytes (sortValues vs)]
  show ((splitByte 38 (joinB _)).foldl parseQuerySeg []) = _
  rw [parseQueryBytes_joinB _ (fragsB_no38 _ hpb) []]
  rw [foldl_seg_frags _ hpb []]
  exact foldl_add_pairsList (sortValues vs) hswf

/-! ## Claim theorems -/

/-- The request `createRequest` builds from all-default `Params`; used to
instantiate call-level theorems at concrete inputs. -/
def emptyRequest : Request :=
  { method := "GET", url := { base := "", rawQuery := "" },
    header := buildHeader [], body := none }

/-- Claim C1: when `ExpectedResponseCode` is unset (zero), the validation
step shared by `Do`, `DoWithStringResponse` and `DoWithCustomClient`
succeeds exactly for response status codes in the closed range [200, 299];
for every status code outside that range each of the three calls fails with
the structured `ResponseStatusError` (`httperrors` error) carrying that
exact status code. -/
theorem validation_success_range_C1 (res : HttpResponse) (params : Params)
    (hasBody : Bool) (dests : List HeaderMap) (env : CallEnv) (s : ClientState)
    (req : Request) (client : HttpClient)
    (hexp : params.expectedResponseCode = 0)
    (hreq : createRequest params = .ok req) (hsend : env.send = .ok res) :
    (checkResponseCode res 0 = none ↔ 200 ≤ res.statusCode ∧ res.statusCode ≤ 299) ∧
    (¬ (200 ≤ res.statusCode ∧ res.statusCode ≤ 299) →
      checkResponseCode res 0 =
        some (.httpError res.statusCode (failureMessage res.bodyRead)) ∧
      (Do params hasBody dests env s).returnErr =
        some (.httpError res.statusCode (failureMessage res.bodyRead)) ∧
      (DoWithStringResponse params env s).returnErr =
        some (.httpError res.statusCode (failureMessage res.bodyRead)) ∧
      (DoWithCustomClient params hasBody client env).returnErr =
        some (.httpError res.statusCode (failureMessage res.bodyRead))) := by
  have hzero := checkResponseCode_no_expected res
  constructor
  · rw [hzero]
    cases hs : isSuccessCode res.statusCode with
    | true => simp [(isSuccessCode_iff res.statusCode).mp hs]
    | false =>
      have hnr : ¬ (200 ≤ res.statusCode ∧ res.statusCode ≤ 299) := fun hr => by
        rw [(isSuccessCode_iff res.statusCode).mpr hr] at hs
        cases hs
      simp [hnr]
  · intro hout
    have hsf : isSuccessCode res.statusCode = false := by
      cases hcase : isSuccessCode res.statusCode with
      | true => exact absurd ((isSuccessCode_iff res.statusCode).mp hcase) hout
      | false => rfl
    have hchk0 : checkResponseCode res 0 =
        some (.httpError res.statusCode (failureMessage res.bodyRead)) := by
      rw [hzero, hsf]
      simp
    have hchk : checkResponseCode res params.expectedResponseCode =
        some (.httpError res.statusCode (failureMessage res.bodyRead)) := by
      rw [hexp]
      exact hchk0
    exact ⟨hchk0,
      Do_returnErr_of_checkFail params hasBody dests env s req res _ hreq hsend hchk,
      Str_returnErr_of_checkFail params env s req res _ hreq hsend hchk,
      Custom_returnErr_of_checkFail params hasBody client env req res _ hreq hsend hchk⟩

/-- Witness for C1: a 500 response with body "boom" and no expected code
makes `Do` fail with the structured error carrying 500 and "boom". -/
theorem validation_success_range_C1_witness :
    (Do defaultParams false [] ⟨.ok ⟨500, [], .ok "boom"⟩, none, none⟩
        ⟨none, 0⟩).returnErr = some (.httpError 500 (some "boom")) := by
  have h := validation_success_range_C1 ⟨500, [], .ok "boom"⟩ defaultParams false []
      ⟨.ok ⟨500, [], .ok "boom"⟩, none, none⟩ ⟨none, 0⟩ emptyRequest
      ⟨defaultTimeout, false, 0⟩ rfl rfl rfl
  exact ((h.2 (by decide)).2.1).trans (by decide)

/-- Claim C2: with a nonzero `ExpectedResponseCode` that differs from the
actual status code, validation fails with exactly the message
`"expected response code {expected} but got {actual}"`, and the check runs
before the generic 2xx test: no hypothesis restricts the actual code, so
the three calls fail this way even for actual codes inside [200, 299]. -/
theorem expected_code_message_C2 (res : HttpResponse) (params : Params)
    (hasBody : Bool) (dests : List HeaderMap) (env : CallEnv) (s : ClientState)
    (req : Request) (client : HttpClient)
    (hne : params.expectedResponseCode ≠ 0)
    (hdiff : res.statusCode ≠ params.expectedResponseCode)
    (hreq : createRequest params = .ok req) (hsend : env.send = .ok res) :
    checkResponseCode res params.expectedResponseCode =
      some (.message ("expected response code " ++ toString params.expectedResponseCode ++
        " but got " ++ toString res.statusCode)) ∧
    (Do params hasBody dests env s).returnErr =
      some (.message ("expected response code " ++ toString params.expectedResponseCode ++
        " but got " ++ toString res.statusCode)) ∧
    (DoWithStringResponse params env s).returnErr =
      some (.message ("expected response code " ++ toString params.expectedResponseCode ++
        " but got " ++ toString res.statusCode)) ∧
    (DoWithCustomClient params hasBody client env).returnErr =
      some (.message ("expected response code " ++ toString params.expectedResponseCode ++
        " but got " ++ toString res.statusCode)) := by
  have hchk : checkResponseCode res params.expectedResponseCode =
      some (.message ("expected response code " ++ toString params.expectedResponseCode ++
        " but got " ++ toString res.statusCode)) := by
    rw [checkResponseCode_cases, if_pos ⟨hne, hdiff⟩]
  exact ⟨hchk,
    Do_returnErr_of_checkFail params hasBody dests env s req res _ hreq hsend hchk,
    Str_returnErr_of_checkFail params env s req res _ hreq hsend hchk,
    Custom_returnErr_of_checkFail params hasBody client env req res _ hreq hsend hchk⟩

/-- Witness for C2: expected 200, actual 201 — although 201 is a success
code, the call fails with exactly
"expected response code 200 but got 201". -/
theorem expected_code_message_C2_witness :
    (Do { defaultParams with expectedResponseCode := 200 } false []
        ⟨.ok ⟨201, [], .ok ""⟩, none, none⟩ ⟨none, 0⟩).returnErr =
      some (.message "expected response code 200 but got 201") ∧
    200 ≤ (201 : Int) ∧ (201 : Int) ≤ 299 := by
  have h := expected_code_message_C2 ⟨201, [], .ok ""⟩
      { defaultParams with expectedResponseCode := 200 } false []
      ⟨.ok ⟨201, [], .ok ""⟩, none, none⟩ ⟨none, 0⟩ emptyRequest
      ⟨defaultTimeout, false, 0⟩ (by decide) (by decide) rfl rfl
  exact ⟨(h.2.1).trans (by decide), by decide, by decide⟩

/-- Counterexample to C3 as stated: at expected code 200, actual code 201
and readable non-empty body "boom", the validation failure is the plain
mismatch message error — not the structured error built from the body
text, which C3 claims for every validation failure. -/
theorem validation_error_shape_C3_counterexample :
    checkResponseCode ⟨201, [], .ok "boom"⟩ 200 =
      some (.message "expected response code 200 but got 201") ∧
    checkResponseCode ⟨201, [], .ok "boom"⟩ 200 ≠
      some (.httpError 201 (some "boom")) := by
  exact ⟨by decide, by decide⟩

/-- Claim C3 (amended): on a validation failure from a non-2xx status code
— that is, when the expected-code check did not already fail — the response
body is read as text and the error is the StructuredError carrying the
status code and: no message when the read fails or yields an empty body,
otherwise the body text verbatim.  A failure of the expected-code check
instead yields the plain mismatch-message error, without consulting the
body. -/
theorem validation_error_shape_C3 (res : HttpResponse) :
    (∀ expected : Int, ¬ (expected ≠ 0 ∧ res.statusCode ≠ expected) →
      isSuccessCode res.statusCode = false →
      checkResponseCode res expected =
        some (.httpError res.statusCode (failureMessage res.bodyRead))) ∧
    (∀ expected : Int, expected ≠ 0 → res.statusCode ≠ expected →
      checkResponseCode res expected =
        some (.message ("expected response code " ++ toString expected ++
          " but got " ++ toString res.statusCode))) ∧
    (∀ str, res.bodyRead = .ok str →
      failureMessage res.bodyRead = if str.length = 0 then none else some str) ∧
    (∀ e, res.bodyRead = .error e → failureMessage res.bodyRead = none) := by
  refine ⟨?_, ?_, ?_, ?_⟩
  · intro expected hpass hfail
    rw [checkResponseCode_cases, if_neg hpass, hfail]
    simp
  · intro expected hne hdiff
    rw [checkResponseCode_cases, if_pos ⟨hne, hdiff⟩]
  · intro str hb
    unfold failureMessage
    rw [hb]
  · intro e hb
    unfold failureMessage
    rw [hb]

/-- Witness for C3 (amended): a 500 response with body "boom" yields the
structured error with message "boom". -/
theorem validation_error_shape_C3_witness :
    checkResponseCode ⟨500, [], .ok "boom"⟩ 0 =
      some (.httpError 500 (some "boom")) := by
  have h := (validation_error_shape_C3 ⟨500, [], .ok "boom"⟩).1 0 (by decide) (by decide)
  exact h.trans (by decide)

/-- Claim C4: a request body that is neither absent nor an `io.Reader` is
JSON-serialised: when the encoder succeeds with text `s`, the built
request's payload is exactly `s`; when the encoder fails with `e`, the call
fails with the body-encoding error wrapping `e`; and an `io.Reader` body is
passed through unmodified as the payload. -/
theorem body_encoding_C4 (params : Params) (req : Request) (s r : String)
    (e : GoError) :
    (params.body = .value (.ok s) → createRequest params = .ok req →
      req.body = some s) ∧
    (params.body = .value (.error e) →
      createRequest params = .error (.wrapped "failed to parse request body to json" e)) ∧
    (params.body = .reader r → createRequest params = .ok req → req.body = some r) ∧
    convertToReader (.value (.ok s)) = .ok (some s) ∧
    convertToReader (.value (.error e)) =
      .error (.wrapped "failed to parse request body to json" e) ∧
    convertToReader (.reader r) = .ok (some r) ∧
    convertToReader .absent = .ok none := by
  refine ⟨?_, ?_, ?_, rfl, rfl, rfl, rfl⟩
  · intro hb hok
    have hc : convertToReader params.body = .ok (some s) := by rw [hb]; rfl
    exact (createRequest_ok_shape params req (some s) hc hok).2.1
  · intro hb
    unfold createRequest
    rw [hb]
    rfl
  · intro hb hok
    have hc : convertToReader params.body = .ok (some r) := by rw [hb]; rfl
    exact (createRequest_ok_shape params req (some r) hc hok).2.1

/-- Witness for C4: an encoder failure surfaces as the wrapped
body-encoding error from `createRequest`. -/
theorem body_encoding_C4_witness :
    createRequest { defaultParams with body := .value (.error (.message "enc")) } =
      .error (.wrapped "failed to parse request body to json" (.message "enc")) ∧
    createRequest { defaultParams with body := .value (.ok "{}") } =
      .ok { emptyRequest with body := some "{}" } := by
  constructor
  · exact (body_encoding_C4 { defaultParams with body := .value (.error (.message "enc")) }
      emptyRequest "" "" (.message "enc")).2.1 rfl
  · rfl

/-- Claim C5: without a timeout override the selected client is the shared
cached instance — created lazily on first use by `GetClient` with the
default 30-second timeout, and returned unchanged (same instance, same
state) on every later call; a nonzero timeout override instead yields a
freshly allocated client carrying that timeout, leaves the cached instance
untouched, differs from the cached instance, and differs again between two
consecutive override calls. -/
theorem client_selection_C5 (s : ClientState) (c : HttpClient) (t : Int) :
    (s.cached = none →
      selectClient 0 s =
        (GetClient s.nextId,
          { cached := some (GetClient s.nextId), nextId := s.nextId + 1 }) ∧
      (GetClient s.nextId).timeout = defaultTimeout ∧
      defaultTimeout = 30 * second) ∧
    (s.cached = some c → selectClient 0 s = (c, s)) ∧
    ((selectClient 0 ((selectClient 0 s).2)).1 = (selectClient 0 s).1 ∧
      (selectClient 0 ((selectClient 0 s).2)).2 = (selectClient 0 s).2) ∧
    (t ≠ 0 →
      (selectClient t s).1.timeout = t ∧
      (selectClient t s).1.id = s.nextId ∧
      (selectClient t s).2.cached = s.cached ∧
      (s.wf = true → s.cached = some c → (selectClient t s).1 ≠ c) ∧
      (selectClient t ((selectClient t s).2)).1 ≠ (selectClient t s).1) := by
  refine ⟨?_, ?_, ?_, ?_⟩
  · intro hn
    refine ⟨?_, rfl, rfl⟩
    unfold selectClient getCachedClient
    rw [hn]
    simp
  · intro hc
    unfold selectClient getCachedClient
    rw [hc]
    simp
  · cases hc : s.cached with
    | none =>
      unfold selectClient getCachedClient
      simp [hc]
    | some c0 =>
      unfold selectClient getCachedClient
      simp [hc]
  · intro ht
    have hsel : ∀ (s2 : ClientState), selectClient t s2 =
        ({ GetClient s2.nextId with timeout := t }, { s2 with nextId := s2.nextId + 1 }) := by
      intro s2
      unfold selectClient
      rw [if_pos ht]
    refine ⟨?_, ?_, ?_, ?_, ?_⟩
    · rw [hsel]
    · rw [hsel]
      rfl
    · rw [hsel]
    · intro hwf hc heq
      rw [hsel] at heq
      have hid : s.nextId = c.id := by
        have h2 := congrArg HttpClient.id heq
        simpa [GetClient] using h2
      unfold ClientState.wf at hwf
      rw [hc] at hwf
      simp only [decide_eq_true_eq] at hwf
      omega
    · intro heq
      rw [hsel, hsel] at heq
      have h2 := congrArg HttpClient.id heq
      simp [GetClient] at h2

/-- Witness for C5: from a state caching client id 3 with allocator at 5, a
7-nanosecond override yields a fresh client with timeout 7 distinct from
the cached one, and leaves the cache untouched. -/
theorem client_selection_C5_witness :
    (selectClient 7 ⟨some (GetClient 3), 5⟩).1.timeout = 7 ∧
    (selectClient 7 ⟨some (GetClient 3), 5⟩).2.cached = some (GetClient 3) ∧
    (selectClient 7 ⟨some (GetClient 3), 5⟩).1 ≠ GetClient 3 ∧
    (selectClient 0 ⟨some (GetClient 3), 5⟩).1 = GetClient 3 := by
  have h := client_selection_C5 ⟨some (GetClient 3), 5⟩ (GetClient 3) 7
  have h4 := h.2.2.2 (by decide)
  refine ⟨h4.1, h4.2.2.1, h4.2.2.2.1 (by decide) rfl, ?_⟩
  have h2 := h.2.1 rfl
  rw [h2]

/-- Claim C6: `createRequest` first sets `Accept` and `Content-Type` to
`application/json`, then applies every caller-supplied header with
`Header.Set`; a caller header whose name canonicalises (case-insensitively,
per MIME header canonicalisation) to a default's name overwrites it, and a
default name without such a collision keeps `application/json`. -/
theorem header_defaults_C6 (params : Params) (req : Request)
    (hreq : createRequest params = .ok req) :
    (∀ ck v, lastCallerValue params.headers ck = some v → req.header ck = some [v]) ∧
    (lastCallerValue params.headers "Accept" = none →
      req.header "Accept" = some ["application/json"]) ∧
    (lastCallerValue params.headers "Content-Type" = none →
      req.header "Content-Type" = some ["application/json"]) ∧
    (∀ ck, ck ≠ "Accept" → ck ≠ "Content-Type" →
      lastCallerValue params.headers ck = none → req.header ck = none) := by
  have hh : req.header = buildHeader params.headers := by
    cases hc : convertToReader params.body with
    | error e =>
      unfold createRequest at hreq
      simp only [hc] at hreq
      cases hreq
    | ok ov => exact (createRequest_ok_shape params req ov hc hreq).1
  refine ⟨?_, ?_, ?_, ?_⟩
  · intro ck v hl
    rw [hh, buildHeader_apply, hl]
  · intro hl
    rw [hh, buildHeader_apply, hl]
    decide
  · intro hl
    rw [hh, buildHeader_apply, hl]
    decide
  · intro ck h1 h2 hl
    rw [hh, buildHeader_apply, hl]
    simp [h1, h2]

/-- Witness for C6: a caller header "content-type" (lower case) overwrites
the Content-Type default, while Accept keeps its default. -/
theorem header_defaults_C6_witness :
    ({ method := "GET", url := { base := "", rawQuery := "" },
        header := buildHeader [("content-type", "image/*")], body := none } :
        Request).header "Content-Type" = some ["image/*"] ∧
    ({ method := "GET", url := { base := "", rawQuery := "" },
        header := buildHeader [("content-type", "image/*")], body := none } :
        Request).header "Accept" = some ["application/json"] := by
  have h := header_defaults_C6
      { defaultParams with headers := [("content-type", "image/*")] }
      { method := "GET", url := { base := "", rawQuery := "" },
        header := buildHeader [("content-type", "image/*")], body := none } rfl
  exact ⟨h.1 "Content-Type" "image/*" (by decide), h.2.1 (by decide)⟩

/-- Claim C7: with a non-empty query map, `createRequest` re-encodes the
URL's raw query as the originally present parameters with every caller pair
added — at every key the merged value list is the original values followed
by the added ones, so nothing is replaced; the encoding (`valuesEncode`)
percent-escapes every key and value; parsing the final URL's raw query
gives back exactly the merged parameters, so every pre-existing parameter
survives in the final request URL; and with an empty query map the raw
query is left untouched. -/
theorem query_merge_C7 (params : Params) (req : Request) (ov : Option String)
    (hc : convertToReader params.body = .ok ov)
    (hreq : createRequest params = .ok req) :
    (params.query = [] → req.url.rawQuery = (parseURL params.url).rawQuery) ∧
    (params.query ≠ [] →
      req.url.rawQuery =
        valuesEncode (mergedValues (parseURL params.url).rawQuery params.query) ∧
      (∀ k, Values.get (mergedValues (parseURL params.url).rawQuery params.query) k =
        Values.get (parseQuery (parseURL params.url).rawQuery) k ++
          addedValues params.query k) ∧
      (∀ k, Values.get (parseQuery req.url.rawQuery) k =
        Values.get (mergedValues (parseURL params.url).rawQuery params.query) k)) := by
  obtain ⟨-, -, -, hq⟩ := createRequest_ok_shape params req ov hc hreq
  constructor
  · intro he
    rw [hq, if_pos he]
  · intro hne
    have hraw : req.url.rawQuery =
        valuesEncode (mergedValues (parseURL params.url).rawQuery params.query) := by
      rw [hq, if_neg hne, mergeQuery_eq]
    refine ⟨hraw, ?_, ?_⟩
    · intro k
      unfold mergedValues
      exact Values.get_foldl_add params.query (parseQuery (parseURL params.url).rawQuery) k
    · intro k
      rw [hraw, parseQuery_valuesEncode _ (mergedValues_wf (parseURL params.url).rawQuery
        params.query)]
      exact get_sortValues _
        (mergedValues_wf (parseURL params.url).rawQuery params.query).1 k

/-- Witness for C7: merging `testKey=testValue` into a URL already carrying
`beenhere=before` keeps the existing parameter and appends the new one. -/
theorem query_merge_C7_witness :
    ({ method := "GET",
       url := { base := "http://h/p",
                rawQuery := mergeQuery "beenhere=before" [("testKey", "testValue")] },
       header := buildHeader [], body := none } : Request).url.rawQuery =
      "beenhere=before&testKey=testValue" ∧
    Values.get (mergedValues "beenhere=before" [("testKey", "testValue")])
        (strBytes "beenhere") = [strBytes "before"] ∧
    Values.get (parseQuery "beenhere=before&testKey=testValue")
        (strBytes "beenhere") = [strBytes "before"] := by
  have h := query_merge_C7
      { defaultParams with
          url := "http://h/p?beenhere=before", query := [("testKey", "testValue")] }
      { method := "GET",
        url := { base := "http://h/p",
                 rawQuery := mergeQuery "beenhere=before" [("testKey", "testValue")] },
        header := buildHeader [], body := none } none rfl rfl
  have h2 := h.2 (by decide)
  refine ⟨h2.1.trans (by decide), (h2.2.1 (strBytes "beenhere")).trans (by decide), ?_⟩
  have h3 := h2.2.2 (strBytes "beenhere")
  exact (by decide : Values.get (parseQuery "beenhere=before&testKey=testValue")
      (strBytes "beenhere") =
    Values.get (parseQuery (mergeQuery "beenhere=before" [("testKey", "testValue")]))
      (strBytes "beenhere")).trans (h3.trans (by decide))

/-- Claim C8: `DoWithCustomClient` dispatches through exactly the supplied
client value — whenever a request is sent, the used client is the caller's
client with all its fields (in particular its timeout) as provided — and
the `Timeout` parameter of the spec has no effect whatsoever on this call
path. -/
theorem custom_client_C8 (params : Params) (hasBody : Bool) (client : HttpClient)
    (env : CallEnv) :
    ((DoWithCustomClient params hasBody client env).usedClient = none ∨
      (DoWithCustomClient params hasBody client env).usedClient = some client) ∧
    (∀ req, createRequest params = .ok req →
      (DoWithCustomClient params hasBody client env).usedClient = some client) ∧
    (∀ t, DoWithCustomClient { params with timeout := t } hasBody client env =
      DoWithCustomClient params hasBody client env) := by
  refine ⟨?_, ?_, ?_⟩
  · unfold DoWithCustomClient
    cases hc : createRequest params with
    | error e => left; rfl
    | ok req =>
      simp only []
      cases hs : env.send with
      | error e => right; rfl
      | ok res =>
        simp only []
        cases hk : checkResponseCode res params.expectedResponseCode with
        | some e => right; rfl
        | none => right; rfl
  · intro req hreq
    unfold DoWithCustomClient
    simp only [hreq]
    cases hs : env.send with
    | error e => rfl
    | ok res =>
      simp only []
      cases hk : checkResponseCode res params.expectedResponseCode with
      | some e => rfl
      | none => rfl
  · intro t
    rfl

/-- Witness for C8: with a timeout of 5 in the params, the custom-client
path still dispatches through the supplied client unchanged. -/
theorem custom_client_C8_witness :
    (DoWithCustomClient { defaultParams with timeout := 5 } false (GetClient 0)
        ⟨.ok ⟨200, [], .ok ""⟩, none, none⟩).usedClient = some (GetClient 0) := by
  have h := custom_client_C8 defaultParams false (GetClient 0)
      ⟨.ok ⟨200, [], .ok ""⟩, none, none⟩
  rw [h.2.2 5]
  exact h.2.1 emptyRequest rfl

/-- Claim C9: whenever a response was received — the request was built and
the send succeeded — the body is closed exactly once in each of the three
entry points, and never when the send failed; and the close outcome becomes
the call's returned error only when the close-free run of the same call
returns no error, so a close failure never masks a prior error. -/
theorem close_once_no_mask_C9 (params : Params) (hasBody : Bool)
    (dests : List HeaderMap) (env : CallEnv) (s : ClientState)
    (client : HttpClient) :
    (∀ req res, createRequest params = .ok req → env.send = .ok res →
      (Do params hasBody dests env s).closeCount = 1 ∧
      (DoWithStringResponse params env s).closeCount = 1 ∧
      (DoWithCustomClient params hasBody client env).closeCount = 1) ∧
    (∀ e, env.send = .error e →
      (Do params hasBody dests env s).closeCount = 0 ∧
      (DoWithStringResponse params env s).closeCount = 0 ∧
      (DoWithCustomClient params hasBody client env).closeCount = 0) ∧
    (∀ e, (Do params hasBody dests ⟨env.send, env.decodeResult, none⟩ s).returnErr = some e →
      (Do params hasBody dests env s).returnErr = some e) ∧
    ((Do params hasBody dests ⟨env.send, env.decodeResult, none⟩ s).returnErr = none →
      (Do params hasBody dests env s).returnErr = env.closeResult) ∧
    (∀ e, (DoWithStringResponse params ⟨env.send, env.decodeResult, none⟩ s).returnErr =
        some e →
      (DoWithStringResponse params env s).returnErr = some e) ∧
    ((DoWithStringResponse params ⟨env.send, env.decodeResult, none⟩ s).returnErr = none →
      (DoWithStringResponse params env s).returnErr = env.closeResult) ∧
    (∀ e, (DoWithCustomClient params hasBody client
        ⟨env.send, env.decodeResult, none⟩).returnErr = some e →
      (DoWithCustomClient params hasBody client env).returnErr = some e) ∧
    ((DoWithCustomClient params hasBody client
        ⟨env.send, env.decodeResult, none⟩).returnErr = none →
      (DoWithCustomClient params hasBody client env).returnErr = env.closeResult) := by
  obtain ⟨sd, dr, cr⟩ := env
  refine ⟨?_, ?_, ?_, ?_, ?_, ?_, ?_, ?_⟩
  · intro req res hreq hsend
    exact closeCount_spec params hasBody dests ⟨sd, dr, cr⟩ s client req res hreq hsend
  · intro e hsend
    exact closeCount_zero_of_sendFail params hasBody dests ⟨sd, dr, cr⟩ s client e hsend
  · intro e hbase
    have hd := (Do_close_decomp params hasBody dests sd dr cr s).2.2.2.2
    rw [hd, hbase]
    rfl
  · intro hbase
    have hd := (Do_close_decomp params hasBody dests sd dr cr s).2.2.2.2
    have hcc := Do_none_closeCount params hasBody dests ⟨sd, dr, none⟩ s hbase
    rw [hd, hbase]
    simp [hcc, applyDeferredClose]
  · intro e hbase
    have hd := (Str_close_decomp params sd dr cr s).2.2.2.2
    rw [hd, hbase]
    rfl
  · intro hbase
    have hd := (Str_close_decomp params sd dr cr s).2.2.2.2
    have hcc := Str_none_closeCount params ⟨sd, dr, none⟩ s hbase
    rw [hd, hbase]
    simp [hcc, applyDeferredClose]
  · intro e hbase
    have hd := (Custom_close_decomp params hasBody client sd dr cr).2.2
    rw [hd, hbase]
    rfl
  · intro hbase
    have hd := (Custom_close_decomp params hasBody client sd dr cr).2.2
    have hcc := Custom_none_closeCount params hasBody client ⟨sd, dr, none⟩ hbase
    rw [hd, hbase]
    simp [hcc, applyDeferredClose]

/-- Witness for C9: on a successful 204 call whose close fails, the close
error becomes the call's error, and the body was closed once. -/
theorem close_once_no_mask_C9_witness :
    (Do defaultParams false []
        ⟨.ok ⟨204, [], .ok ""⟩, none, some (.message "close failed")⟩
        ⟨none, 0⟩).returnErr = some (.message "close failed") ∧
    (Do defaultParams false []
        ⟨.ok ⟨204, [], .ok ""⟩, none, some (.message "close failed")⟩
        ⟨none, 0⟩).closeCount = 1 := by
  have h := close_once_no_mask_C9 defaultParams false []
      ⟨.ok ⟨204, [], .ok ""⟩, none, some (.message "close failed")⟩ ⟨none, 0⟩
      ⟨defaultTimeout, false, 0⟩
  exact ⟨h.2.2.2.1 rfl, (h.1 emptyRequest ⟨204, [], .ok ""⟩ rfl rfl).1⟩

/-- Claim C10: `Do` examines the header-destination argument only after
validation has succeeded — a validation failure is returned as the call's
error even when more than one destination was supplied — and with exactly
one destination and passing validation, the destination receives every
response-header pair: keys absent from the response headers keep their
previous value, keys present are overwritten with the response value. -/
theorem header_capture_C10 (params : Params) (hasBody : Bool) (env : CallEnv)
    (s : ClientState) (req : Request) (res : HttpResponse)
    (hreq : createRequest params = .ok req) (hsend : env.send = .ok res) :
    (∀ dests e, 1 < dests.length →
      checkResponseCode res params.expectedResponseCode = some e →
      (Do params hasBody dests env s).returnErr = some e) ∧
    (∀ d : HeaderMap, checkResponseCode res params.expectedResponseCode = none →
      (Do params hasBody [d] env s).finalHeaderDests =
        [res.header.foldl (fun m kv => m.assign kv.1 kv.2) d] ∧
      (∀ k, lastHeaderValue res.header k = none →
        (res.header.foldl (fun m kv => m.assign kv.1 kv.2) d) k = d k) ∧
      (∀ k v, lastHeaderValue res.header k = some v →
        (res.header.foldl (fun m kv => m.assign kv.1 kv.2) d) k = some v)) := by
  constructor
  · intro dests e hlen hchk
    exact Do_returnErr_of_checkFail params hasBody dests env s req res e hreq hsend hchk
  · intro d hchk
    refine ⟨?_, ?_, ?_⟩
    · unfold Do
      simp only [hreq, hsend, hchk]
      rfl
    · intro k hl
      rw [copyHeaders_apply, hl]
    · intro k v hl
      rw [copyHeaders_apply, hl]

/-- Witness for C10: with two destination maps supplied and a failing 500
response, the call returns the validation error rather than the
too-many-arguments error; with one destination, a pre-existing entry at a
key absent from the response headers survives the copy. -/
theorem header_capture_C10_witness :
    (Do defaultParams false [fun _ => none, fun _ => none]
        ⟨.ok ⟨500, [("X-A", ["1"])], .ok "z"⟩, none, none⟩ ⟨none, 0⟩).returnErr =
      some (.httpError 500 (some "z")) ∧
    (List.foldl (fun m kv => HeaderMap.assign m kv.1 kv.2)
        (fun k => if k = "Pre" then some ["old"] else none)
        [("X-A", ["1"])]) "Pre" = some ["old"] ∧
    (List.foldl (fun m kv => HeaderMap.assign m kv.1 kv.2)
        (fun k => if k = "Pre" then some ["old"] else none)
        [("X-A", ["1"])]) "X-A" = some ["1"] := by
  have h1 := header_capture_C10 defaultParams false
      ⟨.ok ⟨500, [("X-A", ["1"])], .ok "z"⟩, none, none⟩ ⟨none, 0⟩
      emptyRequest ⟨500, [("X-A", ["1"])], .ok "z"⟩ rfl rfl
  have h2 := header_capture_C10 defaultParams false
      ⟨.ok ⟨200, [("X-A", ["1"])], .ok ""⟩, none, none⟩ ⟨none, 0⟩
      emptyRequest ⟨200, [("X-A", ["1"])], .ok ""⟩ rfl rfl
  have hpart := h2.2 (fun k => if k = "Pre" then some ["old"] else none) rfl
  refine ⟨?_, ?_, ?_⟩
  · exact h1.1 [fun _ => none, fun _ => none] (.httpError 500 (some "z"))
      (by decide) (by decide)
  · exact hpart.2.1 "Pre" (by decide)
  · exact hpart.2.2 "X-A" ["1"] (by decide)

end GoRequest
